import Mathlib

/-!
Verification development for the RelayQL printer / classic-node transform of
a relay compiler language plugin.  The definitions below are a shallow
embedding of the TypeScript source: the `RelayQLPrinter` factory (printer
functions, structural validators, `codify` / `objectify` helpers) and the
`createClassicAST` fragment-spread normalizer of `createModernNode.ts`.

Modelling conventions:
  * Emitted TypeScript expressions are modelled by the inductive `Printable`.
    The printer keeps one shared `NULL` node and compares against it by
    reference (`value !== NULL` in `codify`); the model distinguishes the
    shared sentinel (`Printable.sentinelNull`) from freshly created null
    literals (`Printable.nullLit`), which makes the reference comparison a
    constructor comparison.
  * The printer is modelled with `snakeCase = false` (the default), so the
    well-known field names are the plain camelCase strings.
  * Recursive descent through the schema does not structurally terminate
    (generated fields come from the schema facade), so the recursive printer
    functions take a fuel argument; running out of fuel is an explicit error
    that a large enough fuel never reaches on finite inputs.
  * JavaScript object literals may contain duplicate keys; at run time the
    last assignment wins.  `lookupLast` / `jsObjGet` model that semantics.
-/

namespace Relay

/-- Plain JavaScript values appearing as GraphQL literals / metadata values. -/
inductive JSValue : Type where
  | str (s : String)
  | num (n : Int)
  | bool (b : Bool)
  | null
  | arr (xs : List JSValue)
  | obj (props : List (String × JSValue))

/-- JavaScript truthiness for the values `objectify` receives. -/
def JSValue.truthy : JSValue → Bool
  | .str s => s != ""
  | .num n => n != 0
  | .bool b => b
  | .null => false
  | .arr _ => true
  | .obj _ => true

/-- Emitted TypeScript expression nodes (the printer's `Printable`).
`sentinelNull` is the one shared `NULL` node the printer allocates up front;
`nullLit` is a freshly created null literal (`ts.factory.createNull()`). -/
inductive Printable : Type where
  | sentinelNull
  | nullLit
  | lit (v : JSValue)
  | ident (name : String)
  | object (props : List (String × Printable))
  | array (elems : List Printable)
  | call (callee : Printable) (args : List Printable)
  | propAccess (target : Printable) (name : String)

/-- Shorthand for an emitted string literal. -/
def strLit (s : String) : Printable := .lit (.str s)

/-- Reference test against the printer's one shared `NULL` node
(`value !== NULL`), which the model represents as a constructor test. -/
def Printable.isSentinel : Printable → Bool
  | .sentinelNull => true
  | _ => false

/-- The constructor tag of an emitted expression (used to separate emitted
shapes in refutations). -/
def Printable.kindTag : Printable → String
  | .sentinelNull => "sentinelNull"
  | .nullLit => "nullLit"
  | .lit _ => "lit"
  | .ident _ => "ident"
  | .object _ => "object"
  | .array _ => "array"
  | .call _ _ => "call"
  | .propAccess _ _ => "propAccess"

/-- Errors raised by the printer (`RelayTransformError` sites), tagged by
which throw site produced them. -/
inductive Err : Type where
  | outOfFuel
  | tooManyRootFields (count : Nat) (name : String)
  | missingRootField
  | invalidRootFieldArity (fieldName : String)
  | directivesOnTemplateSpread (name : String)
  | conflictingPaginationArguments (argA argB fieldName : String)
  | missingPaginationArgument (subfield fieldName : String)
  | useEdgesNodeInstead (subfield fieldName : String)
  | schemaLookupFailed (name : String)
  | misplacedNodeField (typeName : String)
  | wrongMutationArgumentShape (fieldName : String)
  | missingDeclaredArgument (name : String)
  | relayScalarRequired (varName argName : String)
  | relayVariablesNotArray
  | invalidLiteralValue
  | cannotGenerateField (name : String)
  | malformedSelectVariables
deriving DecidableEq

/-- The `createLiteral` helper: string/number/boolean/null become literals,
anything else raises a `TypeError`. -/
def createLiteral : JSValue → Except Err Printable
  | .str s => .ok (.lit (.str s))
  | .num n => .ok (.lit (.num n))
  | .bool b => .ok (.lit (.bool b))
  | .null => .ok .nullLit
  | .arr _ => .error .invalidLiteralValue
  | .obj _ => .error .invalidLiteralValue

/-- JavaScript object semantics for a (possibly duplicate-keyed) property
list: the value of the last property with the given key. -/
def lookupLast {α : Type} : List (String × α) → String → Option α
  | [], _ => none
  | p :: rest, k =>
      match lookupLast rest k with
      | some v => some v
      | none => if p.1 = k then some p.2 else none

/-- Read a key off an emitted object literal with JS duplicate-key
semantics (last assignment wins); non-objects have no keys. -/
def jsObjGet (p : Printable) (key : String) : Option Printable :=
  match p with
  | .object props => lookupLast props key
  | _ => none

/-- Keys of an emitted object literal, in emission order. -/
def keysOf (p : Printable) : List String :=
  match p with
  | .object props => props.map (·.1)
  | _ => []

/-- The printer's `codify`: build an object literal, skipping every
property whose value is (by reference) the shared `NULL` sentinel. -/
def codify (props : List (String × Printable)) : Printable :=
  .object (props.filter (fun p => !p.2.isSentinel))

/-- The printer's `objectify`: build an object literal from scalar values,
keeping only the truthy ones (falsy values are dropped entirely). -/
def objectify (props : List (String × JSValue)) : Except Err Printable := do
  let kept := props.filter (fun p => p.2.truthy)
  let ps ← kept.mapM (fun p => do
    let l ← createLiteral p.2
    pure (p.1, l))
  pure (.object ps)

-- The printer's `printLiteralValue`: nulls become the shared sentinel,
-- arrays and objects recurse, scalars become literals.
mutual

def printLiteralValue : JSValue → Printable
  | .null => .sentinelNull
  | .str s => .lit (.str s)
  | .num n => .lit (.num n)
  | .bool b => .lit (.bool b)
  | .arr xs => .array (printLiteralValueList xs)
  | .obj ps => .object (printLiteralValueProps ps)

def printLiteralValueList : List JSValue → List Printable
  | [] => []
  | v :: rest => printLiteralValue v :: printLiteralValueList rest

def printLiteralValueProps : List (String × JSValue) → List (String × Printable)
  | [] => []
  | p :: rest => (p.1, printLiteralValue p.2) :: printLiteralValueProps rest

end

/-- The printer's `identify`: split a dotted tag name into a chain of
property accesses. -/
def identify (str : String) : Printable :=
  match str.splitOn "." with
  | [] => .ident str
  | n :: rest => rest.foldl (fun acc name => .propAccess acc name) (.ident n)

/-- The printer's shared empty array literal `EMPTY_ARRAY`. -/
def EMPTY_ARRAY : Printable := .array []

/-- The printer's `shallowFlatten`: wrap an array expression in the runtime
flatten call `[].concat.apply([], arr)`. -/
def shallowFlatten (arr : Printable) : Printable :=
  .call (.propAccess (.propAccess EMPTY_ARRAY "concat") "apply") [EMPTY_ARRAY, arr]

/-- The type of an argument as seen by `printArgumentTypeForMetadata`:
its printed name (with modifiers) and the scalar-kind tests. -/
structure ArgType : Type where
  name : String
  isBoolean : Bool
  isID : Bool
  isString : Bool
deriving DecidableEq

/-- The value bound to an applied argument.  Lists wrap their elements as
argument-like values again (`RelayQLArgument` instances in the source),
which is why `printValue` maps `printArgumentValue` over them; `lit`
carries plain scalar/object/null literal values. -/
inductive ArgValue : Type where
  | var (name : String)
  | lit (v : JSValue)
  | arr (elems : List ArgValue)

/-- An applied argument (`RelayQLArgument`): name, bound value, type. -/
structure Argument : Type where
  name : String
  value : ArgValue
  type : ArgType

/-- A directive application (`RelayQLDirective`). -/
structure Directive : Type where
  name : String
  args : List Argument

-- The selection tree together with the schema facade data each node needs.
-- `QLType` bundles, for one `RelayQLType` handle, exactly the facade
-- queries the printer performs: name (without modifiers), the boolean
-- classification methods, `hasField`/`getFieldDefinition` (as `fieldDefs`),
-- `getIdentifyingFieldDefinition().getName()`, `generateField` (as
-- `generatedFields`) and `generateIdFragment` (as `genIdFragment`).
-- `QLField`, `QLSelection` and `QLFragment` model `RelayQLField`,
-- selections and `RelayQLFragment`.
mutual

inductive QLType : Type where
  | mk (name : String)
       (isAbstract isList isConnection isConnectionEdge isConnectionPageInfo : Bool)
       (canHaveSubselections mayImplementNode alwaysImplementsNode isQueryType : Bool)
       (fieldDefs : List (String × QLType))
       (identifyingField : Option String)
       (generatedFields : List (String × QLField))
       (genIdFragment : Option QLFragment)

inductive QLField : Type where
  | mk (name : String) (aliasName : Option String)
       (args : List Argument)
       (declaredArgs : List (String × ArgType))
       (directives : List Directive)
       (selections : List QLSelection)
       (type : QLType)
       (isPattern : Bool)

inductive QLSelection : Type where
  | field (f : QLField)
  | spread (name : String) (directives : List Directive)
  | inlineFrag (fragment : QLFragment)

inductive QLFragment : Type where
  | mk (name : String) (directives : List Directive)
       (selections : List QLSelection) (type : QLType)

end

namespace QLType

def name : QLType → String
  | .mk n _ _ _ _ _ _ _ _ _ _ _ _ _ => n

def isAbstract : QLType → Bool
  | .mk _ b _ _ _ _ _ _ _ _ _ _ _ _ => b

def isList : QLType → Bool
  | .mk _ _ b _ _ _ _ _ _ _ _ _ _ _ => b

def isConnection : QLType → Bool
  | .mk _ _ _ b _ _ _ _ _ _ _ _ _ _ => b

def isConnectionEdge : QLType → Bool
  | .mk _ _ _ _ b _ _ _ _ _ _ _ _ _ => b

def isConnectionPageInfo : QLType → Bool
  | .mk _ _ _ _ _ b _ _ _ _ _ _ _ _ => b

def canHaveSubselections : QLType → Bool
  | .mk _ _ _ _ _ _ b _ _ _ _ _ _ _ => b

def mayImplementNode : QLType → Bool
  | .mk _ _ _ _ _ _ _ b _ _ _ _ _ _ => b

def alwaysImplementsNode : QLType → Bool
  | .mk _ _ _ _ _ _ _ _ b _ _ _ _ _ => b

def isQueryType : QLType → Bool
  | .mk _ _ _ _ _ _ _ _ _ b _ _ _ _ => b

def fieldDefs : QLType → List (String × QLType)
  | .mk _ _ _ _ _ _ _ _ _ _ fd _ _ _ => fd

def identifyingField : QLType → Option String
  | .mk _ _ _ _ _ _ _ _ _ _ _ idf _ _ => idf

def generatedFields : QLType → List (String × QLField)
  | .mk _ _ _ _ _ _ _ _ _ _ _ _ gf _ => gf

def genIdFragment : QLType → Option QLFragment
  | .mk _ _ _ _ _ _ _ _ _ _ _ _ _ g => g

/-- The facade method `hasField`. -/
def hasField (t : QLType) (n : String) : Bool :=
  (t.fieldDefs.map (fun p => p.1)).contains n

/-- The facade chain `getFieldDefinition(...).getType()`. -/
def fieldDef (t : QLType) (n : String) : Option QLType :=
  (t.fieldDefs.find? (fun p => p.1 = n)).map (fun p => p.2)

/-- The facade method `generateField`. -/
def generateField (t : QLType) (n : String) : Option QLField :=
  (t.generatedFields.find? (fun p => p.1 = n)).map (fun p => p.2)

end QLType

namespace QLField

def name : QLField → String
  | .mk n _ _ _ _ _ _ _ => n

def aliasName : QLField → Option String
  | .mk _ a _ _ _ _ _ _ => a

def args : QLField → List Argument
  | .mk _ _ a _ _ _ _ _ => a

def declaredArgs : QLField → List (String × ArgType)
  | .mk _ _ _ d _ _ _ _ => d

def directives : QLField → List Directive
  | .mk _ _ _ _ d _ _ _ => d

def selections : QLField → List QLSelection
  | .mk _ _ _ _ _ s _ _ => s

def type : QLField → QLType
  | .mk _ _ _ _ _ _ t _ => t

def isPattern : QLField → Bool
  | .mk _ _ _ _ _ _ _ p => p

/-- The field method `hasDeclaredArgument`. -/
def hasDeclaredArgument (f : QLField) (n : String) : Bool :=
  (f.declaredArgs.map (fun p => p.1)).contains n

/-- The field method `getDeclaredArgument` (the argument type). -/
def getDeclaredArgument (f : QLField) (n : String) : Option ArgType :=
  (f.declaredArgs.find? (fun p => p.1 = n)).map (fun p => p.2)

/-- The field method `findArgument` over applied arguments. -/
def findArgument (f : QLField) (n : String) : Option Argument :=
  f.args.find? (fun a => a.name = n)

/-- The field method `hasArgument` over applied arguments. -/
def hasArgument (f : QLField) (n : String) : Bool :=
  (f.findArgument n).isSome

end QLField

namespace QLFragment

def name : QLFragment → String
  | .mk n _ _ _ => n

def directives : QLFragment → List Directive
  | .mk _ d _ _ => d

def selections : QLFragment → List QLSelection
  | .mk _ _ s _ => s

def type : QLFragment → QLType
  | .mk _ _ _ t => t

/-- The fragment method `hasDirective`. -/
def hasDirective (fr : QLFragment) (n : String) : Bool :=
  fr.directives.any (fun d => d.name = n)

end QLFragment

/-- An operation definition (`RelayQLQuery` / `RelayQLMutation` /
`RelayQLSubscription`): name, top-level root fields, directives. -/
structure Operation : Type where
  name : String
  fields : List QLField
  directives : List Directive

/-- The printer instance state: tag name, the names of template
substitutions (`variableNames`), and the already-defaulted
`INPUT_ARGUMENT_NAME` (`options.inputArgumentName || 'input'`). -/
structure PrinterCtx : Type where
  tagName : String
  variableNames : List String
  inputArgumentName : String

/-- Insert a key into a JS-object-as-set of field names: appended at the
end when absent, left in place when already present. -/
def insertName (s : List String) (n : String) : List String :=
  if s.contains n then s else s ++ [n]

/-- The printer method `printVariable`: names that match a substitution
become a `tagName.__var(name)` runtime reference, anything else becomes a
`CallVariable` object. -/
def printVariable (ctx : PrinterCtx) (name : String) : Printable :=
  if ctx.variableNames.contains name then
    .call (.propAccess (identify ctx.tagName) "__var") [.ident name]
  else
    codify [("kind", strLit "CallVariable"), ("callVariableName", strLit name)]

-- `printArgumentValue` / `printValue`: a variable prints through
-- `printVariable`; an array value maps `printArgumentValue` over its
-- argument-like elements; any other value becomes a `CallValue` object
-- whose `callValue` payload is a fresh null literal for null (so `codify`
-- keeps the required property) and `printLiteralValue` otherwise.
mutual

def printArgumentValue (ctx : PrinterCtx) : ArgValue → Printable
  | .var n => printVariable ctx n
  | .arr es => .array (printArgumentValueList ctx es)
  | .lit v =>
      codify [("kind", strLit "CallValue"),
              ("callValue", match v with
                            | .null => .nullLit
                            | v => printLiteralValue v)]

def printArgumentValueList (ctx : PrinterCtx) : List ArgValue → List Printable
  | [] => []
  | a :: rest => printArgumentValue ctx a :: printArgumentValueList ctx rest

end

/-- The printer method `printArgumentTypeForMetadata`: booleans, IDs and
strings can be inlined and yield no `metadata.type`; other types report
their name with modifiers. -/
def printArgumentTypeForMetadata (argType : ArgType) : Option String :=
  if argType.isBoolean || argType.isID || argType.isString then none
  else some argType.name

/-- The printer method `printArgument`: a `Call` object with optional
`metadata.type` and the printed argument value. -/
def printArgument (ctx : PrinterCtx) (arg : Argument) : Except Err Printable := do
  let metadata := match printArgumentTypeForMetadata arg.type with
    | some ty => [("type", JSValue.str ty)]
    | none => []
  let mObj ← objectify metadata
  pure (codify [("kind", strLit "Call"), ("metadata", mObj),
                ("name", strLit arg.name), ("value", printArgumentValue ctx arg.value)])

/-- The printer method `printDirectives`: every directive except `relay`
serializes as a `Directive` object; the empty list becomes the `NULL`
sentinel. -/
def printDirectives (ctx : PrinterCtx) (directives : List Directive) : Printable :=
  let printed := (directives.filter (fun d => d.name != "relay")).map (fun d =>
    Printable.object
      [("kind", strLit "Directive"),
       ("name", strLit d.name),
       ("args", .array (d.args.map (fun arg =>
          Printable.object [("name", strLit arg.name),
                            ("value", printArgumentValue ctx arg.value)])))])
  if printed.length != 0 then .array printed else .sentinelNull

/-- The helper `findRelayDirective`. -/
def findRelayDirective (directives : List Directive) : Option Directive :=
  directives.find? (fun d => d.name = "relay")

/-- The property list contributed by the arguments of a `@relay` directive
in `printRelayDirectiveMetadata`: variables are fatal, the `variables`
argument is consumed silently, every other argument becomes a property via
`createLiteral`. -/
def relayDirectiveProps : List Argument → Except Err (List (String × Printable))
  | [] => pure []
  | arg :: rest =>
      match arg.value with
      | .var vn => throw (.relayScalarRequired vn arg.name)
      | .lit v =>
          if arg.name = "variables" then relayDirectiveProps rest
          else do
            let l ← createLiteral v
            let ls ← relayDirectiveProps rest
            pure ((arg.name, l) :: ls)
      | .arr _ =>
          if arg.name = "variables" then relayDirectiveProps rest
          else throw .invalidLiteralValue

/-- The property list for computed metadata passed into
`printRelayDirectiveMetadata`: each entry serialized with `createLiteral`. -/
def literalProps : List (String × JSValue) → Except Err (List (String × Printable))
  | [] => pure []
  | p :: rest => do
      let l ← createLiteral p.2
      let ls ← literalProps rest
      pure ((p.1, l) :: ls)

/-- The directive-derived properties of `printRelayDirectiveMetadata`:
the `@relay` directive's arguments when present, nothing otherwise. -/
def relayDirPropsOf (directives : List Directive) : Except Err (List (String × Printable)) :=
  match findRelayDirective directives with
  | some d => relayDirectiveProps d.args
  | none => pure []

/-- The printer method `printRelayDirectiveMetadata`: properties from the
node's `@relay` directive are pushed first, then the computed metadata
properties are appended after them. -/
def printRelayDirectiveMetadata (directives : List Directive)
    (maybeMetadata : List (String × JSValue)) : Except Err Printable := do
  let dirProps ← relayDirPropsOf directives
  let mdProps ← literalProps maybeMetadata
  pure (.object (dirProps ++ mdProps))

/-- The helper `shouldGenerateIdFragment`: the type may implement `Node`
and no inline fragment on `Node` is already present. -/
def shouldGenerateIdFragment (t : QLType) (selections : List QLSelection) : Bool :=
  t.mayImplementNode &&
    !(selections.any (fun s =>
        match s with
        | .inlineFrag fr => fr.type.name = "Node"
        | _ => false))

/-- The validator `validateField`: a `node(id: ID)` field declared outside
the root query type is rejected. -/
def validateField (f : QLField) (parentType : QLType) : Except Err Unit :=
  if f.name = "node" then
    let argNames := f.declaredArgs.map (fun p => p.1)
    if !parentType.isQueryType && argNames.length = 1 && argNames.head? = some "id" then
      throw (.misplacedNodeField parentType.name)
    else pure ()
  else pure ()

/-- Whether an optional applied argument is bound to a variable. -/
def isVarArg : Option Argument → Bool
  | some a => match a.value with
              | .var _ => true
              | _ => false
  | none => false

/-- The first half of `validateConnectionField`: the three forbidden
pagination-argument pairs, each allowed only when both members are
variables. -/
def checkPaginationPairs (f : QLField) : Except Err Unit :=
  let first := f.findArgument "first"
  let last := f.findArgument "last"
  let before := f.findArgument "before"
  let after := f.findArgument "after"
  if !(first.isNone || last.isNone || (isVarArg first && isVarArg last)) then
    throw (.conflictingPaginationArguments "first" "last" f.name)
  else if !(first.isNone || before.isNone || (isVarArg first && isVarArg before)) then
    throw (.conflictingPaginationArguments "before" "first" f.name)
  else if !(last.isNone || after.isNone || (isVarArg last && isVarArg after)) then
    throw (.conflictingPaginationArguments "after" "last" f.name)
  else pure ()

-- `forEachRecursiveField`: every field reachable through nested fields and
-- inline fragments (fragment spreads are skipped), in visit order.
mutual

def collectRecursiveFields : List QLSelection → List QLField
  | [] => []
  | s :: rest => collectFromSelection s ++ collectRecursiveFields rest

def collectFromSelection : QLSelection → List QLField
  | .field f => [f]
  | .spread _ _ => []
  | .inlineFrag (.mk _ _ sels _) => collectRecursiveFields sels

end

/-- The second half of `validateConnectionField`: nested `edges`/`pageInfo`
require a pagination or `find` argument (or a pattern field), and
nodes-like list fields of the connection node type are rejected. -/
def checkConnSubfields (connNodeName : String) (f : QLField) :
    List QLField → Except Err Unit
  | [] => pure ()
  | sub :: rest =>
      if sub.name = "edges" || sub.name = "pageInfo" then
        if f.isPattern || f.hasArgument "find" || f.hasArgument "first"
            || f.hasArgument "last" then
          checkConnSubfields connNodeName f rest
        else throw (.missingPaginationArgument sub.name f.name)
      else
        if sub.type.isList && sub.type.name = connNodeName then
          throw (.useEdgesNodeInstead sub.name f.name)
        else checkConnSubfields connNodeName f rest

/-- The schema chain computing the connection node type in
`validateConnectionField`:
`field.getType().getFieldDefinition(edges).getType().getFieldDefinition(node).getType()`. -/
def connectionNodeTypeOf (f : QLField) : Except Err QLType :=
  match f.type.fieldDef "edges" with
  | none => throw (.schemaLookupFailed "edges")
  | some edgesT =>
      match edgesT.fieldDef "node" with
      | none => throw (.schemaLookupFailed "node")
      | some nodeT => pure nodeT

/-- The validator `validateConnectionField`: pagination-pair checks, then
the recursive `edges`/`pageInfo` and nodes-like-field checks against the
connection node type obtained from the schema. -/
def validateConnectionField (f : QLField) : Except Err Unit := do
  checkPaginationPairs f
  let nodeT ← connectionNodeTypeOf f
  checkConnSubfields nodeT.name f (collectRecursiveFields f.selections)

/-- The validator `validateMutationField`: the schema field must declare
exactly one argument, that argument must be named like the configured
input argument, and the applied call must supply at most one argument. -/
def validateMutationField (ctx : PrinterCtx) (rootField : QLField) : Except Err Unit :=
  let declaredArgNames := rootField.declaredArgs.map (fun p => p.1)
  if declaredArgNames.length ≠ 1 then
    throw (.wrongMutationArgumentShape rootField.name)
  else if declaredArgNames.head? ≠ some ctx.inputArgumentName then
    throw (.wrongMutationArgumentShape rootField.name)
  else if rootField.args.length > 1 then
    throw (.wrongMutationArgumentShape rootField.name)
  else pure ()

/-- The printer method `printFragmentReference`: a `tagName.__frag(name)`
call for a template-substitution fragment spread. -/
def printFragmentReference (ctx : PrinterCtx) (name : String) : Printable :=
  .call (.propAccess (identify ctx.tagName) "__frag") [.ident name]

/-- The alias property of a printed field: the shared sentinel when the
alias is absent (or falsy), a string literal otherwise. -/
def aliasProp : Option String → Printable
  | some a => if a = "" then .sentinelNull else strLit a
  | none => .sentinelNull

/-- The metadata contributed by the connection branch of `printField`:
`isConnection` (plus `isFindable` with a declared `find` argument) when the
field declares `first` or `last`. -/
def connectionMetadataChunk (f : QLField) : List (String × JSValue) :=
  if f.type.isConnection then
    if f.hasDeclaredArgument "first" || f.hasDeclaredArgument "last" then
      [("isConnection", JSValue.bool true)]
        ++ (if f.hasDeclaredArgument "find" then [("isFindable", JSValue.bool true)] else [])
    else []
  else []

/-- The computed metadata of `printField`, in the source's assignment
order: `canHaveSubselections`, the inferred `Node` root call, the
connection flags, `isAbstract`, `isPlural`, `isGenerated`, `isRequisite`. -/
def fieldMetadata (f : QLField) (requisiteSiblings generatedSiblings : List String) :
    List (String × JSValue) :=
  (if f.type.canHaveSubselections then [("canHaveSubselections", JSValue.bool true)] else [])
  ++ (if f.type.alwaysImplementsNode then
        [("inferredRootCallName", JSValue.str "node"), ("inferredPrimaryKey", JSValue.str "id")]
      else [])
  ++ connectionMetadataChunk f
  ++ (if f.type.isAbstract then [("isAbstract", JSValue.bool true)] else [])
  ++ (if f.type.isList then [("isPlural", JSValue.bool true)] else [])
  ++ (if generatedSiblings.contains f.name then [("isGenerated", JSValue.bool true)] else [])
  ++ (if requisiteSiblings.contains f.name then [("isRequisite", JSValue.bool true)] else [])

/-- The requisite-field additions of `printField`'s else-if chain: page-info
types require the page flags, edge types require `cursor` and `node`. -/
def childRequisiteExtra (t : QLType) (base : List String) : List String :=
  if t.isConnection then base
  else if t.isConnectionPageInfo then
    insertName (insertName base "hasNextPage") "hasPreviousPage"
  else if t.isConnectionEdge then
    insertName (insertName base "cursor") "node"
  else base

/-- The property list built from a `@relay(variables: [...])` argument in
`printFragment`: each item must be a string value and becomes a property
assignment `value: printVariable(value)`. -/
def selectVariableProps (ctx : PrinterCtx) : List ArgValue → Except Err (List (String × Printable))
  | [] => pure []
  | item :: rest =>
      match item with
      | .lit (.str s) => do
          let ps ← selectVariableProps ctx rest
          pure ((s, printVariable ctx s) :: ps)
      | _ => throw .malformedSelectVariables


/-- The base requisite set of `printField` / `printFragment` for the child
selection: the `id` field when the type has one. -/
def printFieldBaseReq (t : QLType) : List String :=
  if t.hasField "id" then ["id"] else []

/-- The extra fragments passed to `printSelections` by `printField` /
`printFragment`: the generated `... on Node { id }` fragment when needed. -/
def printFieldIdFragment (t : QLType) (selections : List QLSelection) : List QLFragment :=
  if t.hasField "id" then []
  else if shouldGenerateIdFragment t selections then
    match t.genIdFragment with
    | some x => [x]
    | none => []
  else []

/-- The full child requisite set of `printField`: the base set, the
connection-role additions, and `__typename` for abstract types. -/
def printFieldChildReq (t : QLType) : List String :=
  if t.isAbstract then insertName (childRequisiteExtra t (printFieldBaseReq t)) "__typename"
  else childRequisiteExtra t (printFieldBaseReq t)

/-- The requisite-set update at the top of `printFields`: connection
parents force `pageInfo` into the set whenever `edges` is explicitly
requested. -/
def requisiteAfter (parentType : QLType) (fields : List QLField)
    (req : List String) : List String :=
  if parentType.isConnection && parentType.hasField "pageInfo"
      && fields.any (fun fl => fl.name = "edges") then
    insertName req "pageInfo"
  else req

/-- The requisite set `printFragment` computes for its own selections: the
base set plus `__typename` for abstract types (no connection-role step at
the fragment level). -/
def printFragmentReq (t : QLType) : List String :=
  if t.isAbstract then insertName (printFieldBaseReq t) "__typename"
  else printFieldBaseReq t

/-- The `variables` argument of a fragment's `@relay` directive, consumed
by `printFragment` to decide the `__createFragment` wrapping. -/
def fragmentSelectVariables (frag : QLFragment) : Option Argument :=
  match findRelayDirective frag.directives with
  | some d => d.args.find? (fun (a : Argument) => a.name = "variables")
  | none => none

/-- The `__createFragment` wrapping applied by `printFragment` when a
`variables` argument is present: the argument must be an array of variable
names. -/
def printFragmentWrap (ctx : PrinterCtx) (sv : Argument) (fragmentCode : Printable) :
    Except Err Printable :=
  match sv.value with
  | .arr items => do
      let props ← selectVariableProps ctx items
      pure (.call (.propAccess (identify ctx.tagName) "__createFragment")
        [fragmentCode, .object props])
  | _ => throw .relayVariablesNotArray

/-- The tail of `printFragment`: return the fragment object as is without
a `variables` argument, wrap it in `__createFragment` with one. -/
def printFragmentFinish (ctx : PrinterCtx) (selectVariables : Option Argument)
    (fragmentCode : Printable) : Except Err Printable :=
  match selectVariables with
  | none => pure fragmentCode
  | some sv => printFragmentWrap ctx sv fragmentCode

/-- The requisite set `printQuery` computes for the root selections: the
identifying field when the root type has one, plus `__typename` for
abstract root types. -/
def printQueryReq (t : QLType) : List String :=
  let req0 := match t.identifyingField with
    | some nm => [nm]
    | none => []
  if t.isAbstract then insertName req0 "__typename" else req0

-- The recursive descent of the printer.  Each function consumes one unit
-- of fuel per call; `outOfFuel` is unreachable for large enough fuel on a
-- finite input, and every genuine source behaviour is fuel-independent.
mutual

def printFragment (ctx : PrinterCtx) (fuel : Nat) (frag : QLFragment) :
    Except Err Printable :=
  match fuel with
  | 0 => throw .outOfFuel
  | n + 1 => do
      let fragmentType := frag.type
      let selections ← printSelections ctx n frag.selections fragmentType
        (printFragmentReq fragmentType)
        (printFieldIdFragment fragmentType frag.selections)
        (frag.hasDirective "generated")
      let selectVariables : Option Argument := fragmentSelectVariables frag
      let metadata ← printRelayDirectiveMetadata frag.directives
        [("isAbstract", .bool fragmentType.isAbstract),
         ("isTrackingEnabled", .bool selectVariables.isSome)]
      let fragmentCode := codify
        [("children", selections),
         ("directives", printDirectives ctx frag.directives),
         ("id", .call (.propAccess (identify ctx.tagName) "__id") []),
         ("kind", strLit "Fragment"),
         ("metadata", metadata),
         ("name", strLit frag.name),
         ("type", strLit fragmentType.name)]
      printFragmentFinish ctx selectVariables fragmentCode

def printFragmentList (ctx : PrinterCtx) (fuel : Nat) :
    List QLFragment → Except Err (List Printable)
  | [] => pure []
  | fr :: rest =>
      match fuel with
      | 0 => throw .outOfFuel
      | n + 1 => do
          let p ← printFragment ctx n fr
          let ps ← printFragmentList ctx n rest
          pure (p :: ps)

def printSelectionsAux (ctx : PrinterCtx) (fuel : Nat) :
    List QLSelection → Except Err (List QLField × List Printable × Bool)
  | [] => pure ([], [], false)
  | sel :: rest =>
      match fuel with
      | 0 => throw .outOfFuel
      | n + 1 =>
          match sel with
          | .field f => do
              let (fs, pfs, dp) ← printSelectionsAux ctx n rest
              pure (f :: fs, pfs, dp)
          | .spread nm ds =>
              if ds.length ≠ 0 then throw (.directivesOnTemplateSpread nm)
              else do
                let (fs, pfs, _) ← printSelectionsAux ctx n rest
                pure (fs, printFragmentReference ctx nm :: pfs, true)
          | .inlineFrag fr => do
              let pf ← printFragment ctx n fr
              let (fs, pfs, dp) ← printSelectionsAux ctx n rest
              pure (fs, pf :: pfs, dp)

def printSelections (ctx : PrinterCtx) (fuel : Nat) (selections : List QLSelection)
    (parentType : QLType) (requisiteFields : List String)
    (extraFragments : List QLFragment) (isGeneratedQuery : Bool) :
    Except Err Printable :=
  match fuel with
  | 0 => throw .outOfFuel
  | n + 1 => do
      let (fields, printedSpreads, didPrintFragmentReference) ←
        printSelectionsAux ctx n selections
      let extraPrinted ← printFragmentList ctx n extraFragments
      let printedFragments := printedSpreads ++ extraPrinted
      let printedFields ← printFields ctx n fields parentType requisiteFields isGeneratedQuery
      let sels := printedFields ++ printedFragments
      if sels.length ≠ 0 then
        pure (if didPrintFragmentReference then shallowFlatten (.array sels)
              else .array sels)
      else pure .sentinelNull

def printFields (ctx : PrinterCtx) (fuel : Nat) (fields : List QLField)
    (parentType : QLType) (requisiteFields : List String)
    (isGeneratedQuery : Bool) : Except Err (List Printable) :=
  match fuel with
  | 0 => throw .outOfFuel
  | n + 1 => do
      let requisite := requisiteAfter parentType fields requisiteFields
      let (printedExplicit, generatedLeft) ←
        printExplicitFields ctx n fields parentType requisite requisite isGeneratedQuery
      let printedGenerated ←
        printGeneratedFields ctx n generatedLeft parentType requisite generatedLeft
          isGeneratedQuery
      pure (printedExplicit ++ printedGenerated)

def printExplicitFields (ctx : PrinterCtx) (fuel : Nat) (fields : List QLField)
    (parentType : QLType) (requisiteSiblings generatedFields : List String)
    (isGeneratedQuery : Bool) : Except Err (List Printable × List String) :=
  match fuel with
  | 0 => throw .outOfFuel
  | n + 1 =>
      match fields with
      | [] => pure ([], generatedFields)
      | f :: rest => do
          let generated := generatedFields.erase f.name
          let p ← printField ctx n f parentType requisiteSiblings generated isGeneratedQuery
          let (ps, generatedFinal) ←
            printExplicitFields ctx n rest parentType requisiteSiblings generated
              isGeneratedQuery
          pure (p :: ps, generatedFinal)

def printGeneratedFields (ctx : PrinterCtx) (fuel : Nat) (names : List String)
    (parentType : QLType) (requisiteSiblings generatedFields : List String)
    (isGeneratedQuery : Bool) : Except Err (List Printable) :=
  match fuel with
  | 0 => throw .outOfFuel
  | n + 1 =>
      match names with
      | [] => pure []
      | nm :: rest =>
          match parentType.generateField nm with
          | none => throw (.cannotGenerateField nm)
          | some gf => do
              let p ← printField ctx n gf parentType requisiteSiblings generatedFields
                isGeneratedQuery
              let ps ← printGeneratedFields ctx n rest parentType requisiteSiblings
                generatedFields isGeneratedQuery
              pure (p :: ps)

def printField (ctx : PrinterCtx) (fuel : Nat) (f : QLField) (parentType : QLType)
    (requisiteSiblings generatedSiblings : List String)
    (isGeneratedQuery : Bool) : Except Err Printable :=
  match fuel with
  | 0 => throw .outOfFuel
  | n + 1 => do
      let fieldType := f.type
      let _ ← (if isGeneratedQuery = false then validateField f parentType else pure ())
      let _ ← (if fieldType.isConnection
                  && (f.hasDeclaredArgument "first" || f.hasDeclaredArgument "last")
                  && isGeneratedQuery = false then
                validateConnectionField f
              else pure ())
      let metadata := fieldMetadata f requisiteSiblings generatedSiblings
      let children ← printSelections ctx n f.selections fieldType
        (printFieldChildReq fieldType) (printFieldIdFragment fieldType f.selections)
        isGeneratedQuery
      let calls ←
        if f.args.length ≠ 0 then do
          let cs ← f.args.mapM (printArgument ctx)
          pure (Printable.array cs)
        else pure Printable.sentinelNull
      let metadataObj ← printRelayDirectiveMetadata f.directives metadata
      pure (codify
        [("alias", aliasProp f.aliasName),
         ("calls", calls),
         ("children", children),
         ("directives", printDirectives ctx f.directives),
         ("fieldName", strLit f.name),
         ("kind", strLit "Field"),
         ("metadata", metadataObj),
         ("type", strLit fieldType.name)])

end

/-- The tail of `printQuery` shared by both call-arity branches: assemble
the `Query` object. -/
def printQueryFinish (ctx : PrinterCtx) (query : Operation) (rootField : QLField)
    (md : List (String × JSValue)) (calls selections : Printable) :
    Except Err Printable := do
  let mObj ← objectify md
  pure (codify
    [("calls", calls),
     ("children", selections),
     ("directives", printDirectives ctx rootField.directives),
     ("fieldName", strLit rootField.name),
     ("kind", strLit "Query"),
     ("metadata", mObj),
     ("name", strLit query.name),
     ("type", strLit rootField.type.name)])

/-- Everything `printQuery` does after the root-field-count guard. -/
def printQueryBody (ctx : PrinterCtx) (fuel : Nat) (query : Operation) :
    Except Err Printable :=
  match query.fields.head? with
  | none => throw .missingRootField
  | some rootField => do
      let rootFieldType := rootField.type
      let rootFieldArgs := rootField.args
      let req0 := match rootFieldType.identifyingField with
        | some nm => [nm]
        | none => []
      let req1 := if rootFieldType.isAbstract then insertName req0 "__typename" else req0
      let selections ← printSelections ctx fuel rootField.selections rootFieldType req1 [] false
      let md0 := (if rootFieldType.isList then [("isPlural", JSValue.bool true)] else [])
              ++ (if rootFieldType.isAbstract then [("isAbstract", JSValue.bool true)] else [])
      if rootFieldArgs.length > 1 then
        throw (.invalidRootFieldArity rootField.name)
      else
        match rootFieldArgs with
        | [identifyingArg] => do
            let md := md0 ++ [("identifyingArgName", JSValue.str identifyingArg.name),
                              ("identifyingArgType", JSValue.str identifyingArg.type.name)]
            let callMeta ← objectify [("type", JSValue.str identifyingArg.type.name)]
            let calls := Printable.array
              [codify [("kind", strLit "Call"), ("metadata", callMeta),
                       ("name", strLit identifyingArg.name),
                       ("value", printArgumentValue ctx identifyingArg.value)]]
            printQueryFinish ctx query rootField md calls selections
        | _ => printQueryFinish ctx query rootField md0 .sentinelNull selections

/-- The printer method `printQuery`: the root-field-count guard (when
validation is enabled), then the body. -/
def printQuery (ctx : PrinterCtx) (fuel : Nat) (query : Operation)
    (enableValidation : Bool) : Except Err Printable :=
  match fuel with
  | 0 => throw .outOfFuel
  | n + 1 =>
      if query.fields.length ≠ 1 ∧ enableValidation = true then
        throw (.tooManyRootFields query.fields.length query.name)
      else printQueryBody ctx n query

/-- The `metadata.inputType` computation of `printMutation` /
`printSubscription`:
`printArgumentTypeForMetadata(rootField.getDeclaredArgument(INPUT_ARGUMENT_NAME))`. -/
def mutationInputTypeOf (ctx : PrinterCtx) (rootField : QLField) :
    Except Err (Option String) :=
  match rootField.getDeclaredArgument ctx.inputArgumentName with
  | some t => pure (printArgumentTypeForMetadata t)
  | none => throw (.missingDeclaredArgument ctx.inputArgumentName)

/-- Everything `printMutation` does after the root-field-count guard. -/
def printMutationBody (ctx : PrinterCtx) (fuel : Nat) (mutation : Operation) :
    Except Err Printable :=
  match mutation.fields.head? with
  | none => throw .missingRootField
  | some rootField => do
      let rootFieldType := rootField.type
      validateMutationField ctx rootField
      let requisiteFields :=
        if rootFieldType.hasField "clientMutationId" then ["clientMutationId"] else []
      let selections ← printSelections ctx fuel rootField.selections rootFieldType
        requisiteFields [] false
      let inputType ← mutationInputTypeOf ctx rootField
      let mObj ← objectify [("inputType", match inputType with
                                          | some s => JSValue.str s
                                          | none => JSValue.null)]
      let emptyMeta ← objectify []
      pure (codify
        [("calls", Printable.array
            [codify [("kind", strLit "Call"), ("metadata", emptyMeta),
                     ("name", strLit rootField.name),
                     ("value", printVariable ctx "input")]]),
         ("children", selections),
         ("directives", printDirectives ctx mutation.directives),
         ("kind", strLit "Mutation"),
         ("metadata", mObj),
         ("name", strLit mutation.name),
         ("responseType", strLit rootFieldType.name)])

/-- The printer method `printMutation`: the root-field-count guard (when
validation is enabled), then the body. -/
def printMutation (ctx : PrinterCtx) (fuel : Nat) (mutation : Operation)
    (enableValidation : Bool) : Except Err Printable :=
  match fuel with
  | 0 => throw .outOfFuel
  | n + 1 =>
      if mutation.fields.length ≠ 1 ∧ enableValidation = true then
        throw (.tooManyRootFields mutation.fields.length mutation.name)
      else printMutationBody ctx n mutation

/-- Everything `printSubscription` does after the root-field-count guard. -/
def printSubscriptionBody (ctx : PrinterCtx) (fuel : Nat) (subscription : Operation) :
    Except Err Printable :=
  match subscription.fields.head? with
  | none => throw .missingRootField
  | some rootField => do
      let rootFieldType := rootField.type
      validateMutationField ctx rootField
      let req0 :=
        if rootFieldType.hasField "clientSubscriptionId" then ["clientSubscriptionId"] else []
      let req1 :=
        if rootFieldType.hasField "clientMutationId" then insertName req0 "clientMutationId"
        else req0
      let selections ← printSelections ctx fuel rootField.selections rootFieldType req1 [] false
      let inputType ← mutationInputTypeOf ctx rootField
      let mObj ← objectify [("inputType", match inputType with
                                          | some s => JSValue.str s
                                          | none => JSValue.null)]
      let emptyMeta ← objectify []
      pure (codify
        [("calls", Printable.array
            [codify [("kind", strLit "Call"), ("metadata", emptyMeta),
                     ("name", strLit rootField.name),
                     ("value", printVariable ctx "input")]]),
         ("children", selections),
         ("directives", printDirectives ctx subscription.directives),
         ("kind", strLit "Subscription"),
         ("metadata", mObj),
         ("name", strLit subscription.name),
         ("responseType", strLit rootFieldType.name)])

/-- The printer method `printSubscription`: the root-field-count guard
(when validation is enabled), then the body. -/
def printSubscription (ctx : PrinterCtx) (fuel : Nat) (subscription : Operation)
    (enableValidation : Bool) : Except Err Printable :=
  match fuel with
  | 0 => throw .outOfFuel
  | n + 1 =>
      if subscription.fields.length ≠ 1 ∧ enableValidation = true then
        throw (.tooManyRootFields subscription.fields.length subscription.name)
      else printSubscriptionBody ctx n subscription

-- The classic-node normalizer: the `FragmentSpread` visitor of
-- `createClassicAST` in `createModernNode.ts`.  graphql's `visit` applies
-- the visitor to the definition's fragment spreads in document order; the
-- spreads' own directives never reach the `Directive` visitor because the
-- rewritten node returned for each spread carries no directives, so the
-- spread rewriting is fully described by a fold over the spread list.
namespace Classic

/-- GraphQL value nodes as the visitor sees them.  `intV` carries the
already-parsed integer of an `IntValue`; `floatV` keeps the raw numeral of
a `FloatValue`. -/
inductive GValue : Type where
  | variable (name : String)
  | boolean (b : Bool)
  | intV (i : Int)
  | floatV (raw : String)
  | strV (s : String)
  | enumV (s : String)
  | listV (vs : List GValue)
  | objV (fields : List (String × GValue))

/-- Emitted TypeScript expressions for the classic transform. -/
inductive TsExpr : Type where
  | nullLit
  | trueLit
  | falseLit
  | numLit (i : Int)
  | numLitRaw (raw : String)
  | strLit (s : String)
  | arrayLit (es : List TsExpr)
  | objectLit (props : List (String × TsExpr))

/-- A directive application on a fragment spread. -/
structure GDirective : Type where
  name : String
  args : List (String × GValue)

/-- A fragment spread node as the visitor sees it. -/
structure GSpread : Type where
  fragmentName : String
  directives : List GDirective

/-- Errors thrown by the visitor. -/
inductive CErr : Type where
  | conflictingSpreadDirectives
  | unsupportedSpreadDirective (name : String)
  | relayMaskArgumentExpected
  | unsupportedLiteralType (kind : String)
deriving DecidableEq

-- `parseValue`: boolean, int, float, string, enum and list literals are
-- supported; anything else throws.
mutual

def parseValue : GValue → Except CErr TsExpr
  | .boolean b => .ok (if b then .trueLit else .falseLit)
  | .intV i => .ok (.numLit i)
  | .floatV raw => .ok (.numLitRaw raw)
  | .strV s => .ok (.strLit s)
  | .enumV s => .ok (.strLit s)
  | .listV vs => do
      let es ← parseValueList vs
      pure (.arrayLit es)
  | .variable _ => throw (.unsupportedLiteralType "Variable")
  | .objV _ => throw (.unsupportedLiteralType "ObjectValue")

def parseValueList : List GValue → Except CErr (List TsExpr)
  | [] => pure []
  | v :: rest => do
      let e ← parseValue v
      let es ← parseValueList rest
      pure (e :: es)

end

/-- `convertArgument`: variables become `CallVariable` objects, everything
else goes through `parseValue`. -/
def convertArgument : GValue → Except CErr TsExpr
  | .variable paramName =>
      .ok (.objectLit [("kind", .strLit "CallVariable"),
                       ("callVariableName", .strLit paramName)])
  | v => parseValue v

/-- One entry of the `fragments` substitution table. -/
structure FragmentEntry : Type where
  name : String
  args : Option TsExpr
  isMasked : Bool

/-- The per-definition state of `createClassicAST`: the shared spread
counter `fragmentID`, the substitution table, and the recorded variable
names (the keys of the source's `variables` object, in insertion order). -/
structure SpreadState : Type where
  fragmentID : Nat
  fragments : List (String × FragmentEntry)
  varNames : List String

/-- Assignment into the `fragments` JS object: overwrite in place when the
key exists, append otherwise. -/
def setFragment (m : List (String × FragmentEntry)) (k : String) (v : FragmentEntry) :
    List (String × FragmentEntry) :=
  if (m.map (fun p => p.1)).contains k then
    m.map (fun p => if p.1 = k then (k, v) else p)
  else m ++ [(k, v)]

/-- The `@arguments` argument loop: variable-valued arguments are recorded
in the variable table, each argument is converted, and the converted
properties keep argument order. -/
def convertArgs (vars : List String) :
    List (String × GValue) → Except CErr (List String × List (String × TsExpr))
  | [] => .ok (vars, [])
  | (n, v) :: rest => do
      let vars1 := match v with
        | .variable vn => insertName vars vn
        | _ => vars
      let e ← convertArgument v
      let (varsF, ps) ← convertArgs vars1 rest
      pure (varsF, (n, e) :: ps)

/-- The `FragmentSpread` visitor: returns the updated state and the
substitution name given to the rewritten spread. -/
def processFragmentSpread (st : SpreadState) (sp : GSpread) :
    Except CErr (SpreadState × String) :=
  let fragmentName := sp.fragmentName
  match sp.directives with
  | [] =>
      .ok ({ st with
             fragments := (setFragment st.fragments fragmentName
               ⟨fragmentName, none, true⟩) },
           fragmentName)
  | directive :: rest =>
      if rest.length ≠ 0 then throw .conflictingSpreadDirectives
      else if directive.name = "arguments" then do
        let (vars, props) ← convertArgs st.varNames directive.args
        let fragmentArgumentsAST := TsExpr.objectLit props
        let fragmentID := st.fragmentID + 1
        let substitutionName := fragmentName ++ "_args" ++ toString fragmentID
        .ok ({ fragmentID := fragmentID,
               varNames := vars,
               fragments := (setFragment st.fragments substitutionName
                 ⟨fragmentName, some fragmentArgumentsAST, true⟩) },
             substitutionName)
      else if directive.name = "relay" then
        let relayArguments := directive.args
        if relayArguments.length ≠ 1
            ∨ (relayArguments.head?.map (fun p => p.1)) ≠ some "mask" then
          throw .relayMaskArgumentExpected
        else
          let isMasked := match relayArguments.head? with
            | some (_, .boolean b) => b
            | _ => true
          .ok ({ st with fragments := (setFragment st.fragments fragmentName
                 ⟨fragmentName, none, isMasked⟩) },
               fragmentName)
      else throw (.unsupportedSpreadDirective directive.name)

/-- The initial per-definition state. -/
def initState : SpreadState := ⟨0, [], []⟩

/-- Fold the visitor over a definition's spreads in document order,
collecting the substitution names assigned to them. -/
def processSpreads (st : SpreadState) :
    List GSpread → Except CErr (SpreadState × List String)
  | [] => .ok (st, [])
  | sp :: rest => do
      let (st1, nm) ← processFragmentSpread st sp
      let (stF, names) ← processSpreads st1 rest
      pure (stF, nm :: names)

/-- A spread carrying exactly one `@arguments` directive. -/
def isArgumentsSpread (sp : GSpread) : Bool :=
  match sp.directives with
  | [d] => d.name = "arguments"
  | _ => false

/-- The number of `@arguments` spreads in a list. -/
def countArgumentsSpreads (l : List GSpread) : Nat :=
  (l.filter isArgumentsSpread).length

end Classic

-- Extraction helpers used by the theorem statements below.

/-- The `fieldName` of a printed object, when it is a string literal. -/
def fieldNameOf (p : Printable) : Option String :=
  match jsObjGet p "fieldName" with
  | some (.lit (.str s)) => some s
  | _ => none

/-- The field names of a list of printed selections (entries without a
`fieldName`, such as printed fragments and spread references, are skipped). -/
def namesOf (ps : List Printable) : List String :=
  ps.filterMap fieldNameOf

/-- How many printed entries carry the given field name. -/
def countFieldName (ps : List Printable) (nm : String) : Nat :=
  (namesOf ps).count nm

/-- The `metadata` object of a printed node. -/
def metadataOf (p : Printable) : Printable :=
  (jsObjGet p "metadata").getD .sentinelNull

/-- The entries of a printed selection set: none for the null sentinel, the
elements for a plain array, and the wrapped elements for a flatten call. -/
def selectionEntries : Printable → List Printable
  | .array els => els
  | .call _ [_, .array els] => els
  | _ => []

/-- The `children` entries of a printed node. -/
def childEntries (p : Printable) : List Printable :=
  selectionEntries ((jsObjGet p "children").getD .sentinelNull)

/-- The field selections of a selection list, in order (spreads and inline
fragments are skipped), as separated by the first pass of
`printSelections`. -/
def fieldSelectionsOf : List QLSelection → List QLField
  | [] => []
  | .field f :: rest => f :: fieldSelectionsOf rest
  | _ :: rest => fieldSelectionsOf rest

/-- Whether a selection list contains a fragment spread. -/
def hasSpread (sels : List QLSelection) : Bool :=
  sels.any (fun s => match s with
    | .spread _ _ => true
    | _ => false)

/-- Schema sanity for generated fields: `generateField` returns a field
carrying the requested name. -/
def generatesOwnNameB (t : QLType) : Bool :=
  t.generatedFields.all (fun p => p.2.name == p.1)

/-- The value of the single printed `Call` of a printed operation. -/
def firstCallValue (p : Printable) : Option Printable :=
  match jsObjGet p "calls" with
  | some (.array [c]) => jsObjGet c "value"
  | _ => none

/-- Strip the `__createFragment` wrapper from a printed fragment (the
wrapped fragment object is the call's first argument); other nodes are
returned unchanged. -/
def fragmentNodeOf : Printable → Printable
  | .call _ (fc :: _) => fc
  | p => p


/-- The claim's description of a forbidden pagination pair: both applied
arguments present and not both bound to variables. -/
def forbiddenPairB (f : QLField) (a b : String) : Bool :=
  (f.findArgument a).isSome && (f.findArgument b).isSome
    && !(isVarArg (f.findArgument a) && isVarArg (f.findArgument b))

/-- The claim's characterization of when `ConflictingPaginationArguments`
must be raised: one of the pairs first+last, before+first, after+last is
forbidden. -/
def conflictingPaginationB (f : QLField) : Bool :=
  forbiddenPairB f "first" "last" || forbiddenPairB f "before" "first"
    || forbiddenPairB f "after" "last"

/-- Unpack an `ok` result, with a default for the error case (used to name
concrete printer outputs in closed statements). -/
def okD {ε α : Type} (e : Except ε α) (d : α) : α :=
  match e with
  | .ok a => a
  | .error _ => d

-- Concrete schema fixtures used by closed witness and counterexample
-- statements.
namespace Cex

/-- A scalar type: no roles, no fields. -/
def scalarT (nm : String) : QLType :=
  .mk nm false false false false false false false false false [] none [] none

/-- A bare field without arguments, directives or selections. -/
def bare (nm : String) (t : QLType) : QLField :=
  .mk nm none [] [] [] [] t false

/-- The node type of the example connection. -/
def nodeT : QLType :=
  .mk "Story" false false false false false true false false false [] none [] none

/-- An example page-info type that can generate its two flag fields. -/
def pageInfoT : QLType :=
  .mk "PageInfo" false false false false true true false false false
    [("hasNextPage", scalarT "Boolean"), ("hasPreviousPage", scalarT "Boolean")] none
    [("hasNextPage", bare "hasNextPage" (scalarT "Boolean")),
     ("hasPreviousPage", bare "hasPreviousPage" (scalarT "Boolean"))] none

/-- An example edge type that can generate `cursor` and `node`. -/
def edgeT : QLType :=
  .mk "StoryEdge" false false false true false true false false false
    [("cursor", scalarT "String"), ("node", nodeT)] none
    [("cursor", bare "cursor" (scalarT "String")), ("node", bare "node" nodeT)] none

/-- An example connection type with `edges` and `pageInfo`. -/
def connT : QLType :=
  .mk "StoryConnection" false false true false false true false false false
    [("edges", edgeT), ("pageInfo", pageInfoT)] none
    [("pageInfo", bare "pageInfo" pageInfoT)] none

/-- A printer context without substitutions. -/
def ctx0 : PrinterCtx := ⟨"Relay.QL", [], "input"⟩

/-- A printer context where a substitution is named `input`. -/
def ctxInput : PrinterCtx := ⟨"Relay.QL", ["input"], "input"⟩

/-- The explicit `edges` field of the connection examples. -/
def edgesField : QLField := bare "edges" edgeT

/-- An abstract type that can generate `__typename`. -/
def absT : QLType :=
  .mk "Actor" true false false false false true false false false
    [("__typename", scalarT "String")] none
    [("__typename", bare "__typename" (scalarT "String"))] none

/-- A `@relay` directive list supplying the computed metadata key
`isAbstract` with the value `false`. -/
def relayCollisionDirs : List Directive :=
  [⟨"relay", [⟨"isAbstract", .lit (.bool false), ⟨"Boolean", true, false, false⟩⟩]⟩]

/-- Computed metadata binding `isAbstract` to `true`. -/
def collisionMd : List (String × JSValue) := [("isAbstract", .bool true)]

/-- A fragment on the abstract type whose `@relay` directive supplies the
computed metadata key `isAbstract` with the value `false`. -/
def fragRelayCollision : QLFragment :=
  .mk "F" relayCollisionDirs [] absT

/-- A concrete (non-abstract) object type. -/
def concT : QLType :=
  .mk "User" false false false false false true false false false
    [("name", scalarT "String")] none [] none

/-- A plain fragment without directives on the concrete type. -/
def plainFrag : QLFragment :=
  .mk "G" [] [.field (bare "name" (scalarT "String"))] concT

/-- The payload type of the example mutation. -/
def mutT : QLType :=
  .mk "AddPayload" false false false false false true false false false
    [("ok", scalarT "Boolean")] none [] none

/-- The example mutation root field: declares exactly one `input` argument
and applies one argument. -/
def mutRoot : QLField :=
  .mk "addThing" none [⟨"input", .var "input", ⟨"AddInput!", false, false, false⟩⟩]
    [("input", ⟨"AddInput!", false, false, false⟩)] []
    [.field (bare "ok" (scalarT "Boolean"))] mutT false

/-- The example mutation. -/
def mutOp : Operation := ⟨"AddMutation", [mutRoot], []⟩

/-- An abstract query root type that can generate `__typename`. -/
def qRootT : QLType :=
  .mk "Viewer" true false false false false true false false false
    [("__typename", scalarT "String"), ("name", scalarT "String")] none
    [("__typename", bare "__typename" (scalarT "String"))] none

/-- The abstract root field without explicit selections. -/
def qRoot : QLField := bare "viewer" qRootT

/-- The example query on the abstract root. -/
def qOp : Operation := ⟨"Q", [qRoot], []⟩

/-- An operation with two root fields (invalid when validation is on). -/
def twoFieldOp : Operation := ⟨"TwoFields", [qRoot, qRoot], []⟩

/-- The abstract root field explicitly requesting `__typename`. -/
def qRootExplicit : QLField :=
  .mk "viewer" none [] [] [] [.field (bare "__typename" (scalarT "String"))] qRootT false

/-- The example query explicitly requesting `__typename`. -/
def qOpExplicit : Operation := ⟨"Q2", [qRootExplicit], []⟩

end Cex

-- Basic lemmas about the monadic plumbing and JS object lookups.

theorem except_bind_ok {ε α β : Type} {x : Except ε α} {f : α → Except ε β} {b : β} :
    (x >>= f) = .ok b ↔ ∃ a, x = .ok a ∧ f a = .ok b := by
  cases x <;> simp [Bind.bind, Except.bind]

theorem except_throw_def {ε α : Type} (e : ε) : (throw e : Except ε α) = .error e := rfl

theorem except_pure_def {ε α : Type} (a : α) : (pure a : Except ε α) = .ok a := rfl

theorem lookupLast_append {α : Type} (xs ys : List (String × α)) (k : String) :
    lookupLast (xs ++ ys) k =
      match lookupLast ys k with
      | some v => some v
      | none => lookupLast xs k := by
  induction xs with
  | nil =>
      simp only [List.nil_append, lookupLast]
      cases lookupLast ys k <;> rfl
  | cons p rest ih =>
      simp only [List.cons_append, lookupLast, List.append_eq, ih]
      cases lookupLast ys k <;> cases lookupLast rest k <;> rfl

theorem lookupLast_eq_none_of_keys {α : Type} {props : List (String × α)} {k : String}
    (h : ∀ p ∈ props, p.1 ≠ k) : lookupLast props k = none := by
  induction props with
  | nil => rfl
  | cons p rest ih =>
      have hr : lookupLast rest k = none := ih (fun q hq => h q (List.mem_cons_of_mem p hq))
      have hp : p.1 ≠ k := h p (List.mem_cons_self p rest)
      simp [lookupLast, hr, hp]

theorem literalProps_lookup_none {md : List (String × JSValue)}
    {ps : List (String × Printable)} (h : literalProps md = .ok ps)
    {k : String} (hk : lookupLast md k = none) :
    lookupLast ps k = none := by
  induction md generalizing ps with
  | nil =>
      simp only [literalProps, except_pure_def, Except.ok.injEq] at h
      subst h
      rfl
  | cons p rest ih =>
      simp only [literalProps] at h
      rw [except_bind_ok] at h
      obtain ⟨l, hl, h⟩ := h
      rw [except_bind_ok] at h
      obtain ⟨ls, hls, h⟩ := h
      rw [except_pure_def, Except.ok.injEq] at h
      subst h
      simp only [lookupLast] at hk ⊢
      cases hrest : lookupLast rest k with
      | some v2 => rw [hrest] at hk; exact Option.noConfusion hk
      | none =>
          rw [hrest] at hk
          have hk2 : (if p.1 = k then some p.2 else none) = none := hk
          rw [ih hls hrest]
          by_cases hkey : p.1 = k
          · rw [if_pos hkey] at hk2; exact Option.noConfusion hk2
          · exact if_neg hkey

theorem literalProps_lookup_some {md : List (String × JSValue)}
    {ps : List (String × Printable)} (h : literalProps md = .ok ps)
    {k : String} {v : JSValue} (hk : lookupLast md k = some v) :
    ∃ l, createLiteral v = .ok l ∧ lookupLast ps k = some l := by
  induction md generalizing ps with
  | nil => simp [lookupLast] at hk
  | cons p rest ih =>
      simp only [literalProps] at h
      rw [except_bind_ok] at h
      obtain ⟨l, hl, h⟩ := h
      rw [except_bind_ok] at h
      obtain ⟨ls, hls, h⟩ := h
      rw [except_pure_def, Except.ok.injEq] at h
      subst h
      simp only [lookupLast] at hk ⊢
      cases hrest : lookupLast rest k with
      | some v2 =>
          rw [hrest] at hk
          have hk2 : some v2 = some v := hk
          obtain rfl : v2 = v := Option.some.inj hk2
          obtain ⟨l2, hl2, hps⟩ := ih hls hrest
          rw [hps]
          exact ⟨l2, hl2, rfl⟩
      | none =>
          rw [hrest] at hk
          have hk2 : (if p.1 = k then some p.2 else none) = some v := hk
          rw [literalProps_lookup_none hls hrest]
          by_cases hkey : p.1 = k
          · rw [if_pos hkey] at hk2
            obtain rfl : p.2 = v := Option.some.inj hk2
            rw [if_pos hkey]
            exact ⟨l, hl, rfl⟩
          · rw [if_neg hkey] at hk2
            exact Option.noConfusion hk2


theorem printRelayDirectiveMetadata_lookup {ds : List Directive}
    {md : List (String × JSValue)} {obj : Printable}
    (h : printRelayDirectiveMetadata ds md = .ok obj)
    {k : String} {v : JSValue} (hk : lookupLast md k = some v) :
    ∃ l, createLiteral v = .ok l ∧ jsObjGet obj k = some l := by
  unfold printRelayDirectiveMetadata at h
  rw [except_bind_ok] at h
  obtain ⟨dirProps, hdir, h⟩ := h
  rw [except_bind_ok] at h
  obtain ⟨mdProps, hmd, h⟩ := h
  rw [except_pure_def, Except.ok.injEq] at h
  subst h
  obtain ⟨l, hl, hlk⟩ := literalProps_lookup_some hmd hk
  refine ⟨l, hl, ?_⟩
  simp only [jsObjGet]
  rw [lookupLast_append, hlk]

theorem printRelayDirectiveMetadata_ok_object {ds : List Directive}
    {md : List (String × JSValue)} {obj : Printable}
    (h : printRelayDirectiveMetadata ds md = .ok obj) :
    ∃ ps, obj = .object ps := by
  unfold printRelayDirectiveMetadata at h
  rw [except_bind_ok] at h
  obtain ⟨dirProps, _, h⟩ := h
  rw [except_bind_ok] at h
  obtain ⟨mdProps, _, h⟩ := h
  rw [except_pure_def, Except.ok.injEq] at h
  exact ⟨dirProps ++ mdProps, h.symm⟩

/-- C1 (counterexample): on the fragment `Cex.fragRelayCollision`, whose
`@relay` directive supplies `isAbstract: false` while the printer computes
`isAbstract: true`, the printed metadata object's `isAbstract` value under
JS duplicate-key semantics is the computed `true`, not the
directive-supplied `false` — so directive-derived metadata does not
override computed metadata. -/
theorem c1_counterexample :
    jsObjGet (metadataOf (okD (printFragment Cex.ctx0 20 Cex.fragRelayCollision)
        Printable.sentinelNull)) "isAbstract" = some (.lit (.bool true)) ∧
      (Printable.lit (.bool true)) ≠ (Printable.lit (.bool false)) := by
  constructor
  · rfl
  · simp

/-- C1 (amended): in `printRelayDirectiveMetadata` the directive-derived
properties are pushed first and the computed metadata properties are
appended after them, so under JS duplicate-key semantics a computed key
always wins on collision: whichever value the computed metadata binds to a
key is the value the emitted metadata object yields for that key. -/
theorem c1_theorem {ds : List Directive} {md : List (String × JSValue)} {obj : Printable}
    (h : printRelayDirectiveMetadata ds md = .ok obj)
    {k : String} {v : JSValue} (hk : lookupLast md k = some v) :
    ∃ l, createLiteral v = .ok l ∧ jsObjGet obj k = some l :=
  printRelayDirectiveMetadata_lookup h hk

/-- C1 (witness): the amended theorem applied to the collision example:
the computed `isAbstract: true` wins over the directive-supplied value. -/
theorem c1_witness :
    ∃ l, createLiteral (JSValue.bool true) = .ok l ∧
      jsObjGet (okD (printRelayDirectiveMetadata Cex.relayCollisionDirs Cex.collisionMd)
        Printable.sentinelNull) "isAbstract" = some l :=
  @c1_theorem Cex.relayCollisionDirs Cex.collisionMd
    (okD (printRelayDirectiveMetadata Cex.relayCollisionDirs Cex.collisionMd)
      Printable.sentinelNull)
    (by rfl) "isAbstract" (JSValue.bool true) (by rfl)



theorem except_bind_error {ε α β : Type} {x : Except ε α} {f : α → Except ε β} {e : ε} :
    (x >>= f) = .error e ↔ x = .error e ∨ ∃ a, x = .ok a ∧ f a = .error e := by
  cases x <;> simp [Bind.bind, Except.bind]

theorem pairCondEq (x y : Option Argument) :
    (!(x.isNone || y.isNone || (isVarArg x && isVarArg y)))
      = (x.isSome && y.isSome && !(isVarArg x && isVarArg y)) := by
  cases x <;> cases y <;> simp [isVarArg]

theorem checkConnSubfields_no_conflict (connNodeName : String) (f : QLField)
    (subs : List QLField) (a b nm : String) :
    checkConnSubfields connNodeName f subs ≠ .error (.conflictingPaginationArguments a b nm) := by
  induction subs with
  | nil => simp [checkConnSubfields, except_pure_def]
  | cons sub rest ih =>
      simp only [checkConnSubfields]
      split
      · split
        · exact ih
        · simp [except_throw_def]
      · split
        · simp [except_throw_def]
        · exact ih

theorem connectionNodeTypeOf_no_conflict (f : QLField) (a b nm : String) :
    connectionNodeTypeOf f ≠ .error (.conflictingPaginationArguments a b nm) := by
  unfold connectionNodeTypeOf
  split
  · simp [except_throw_def]
  · split
    · simp [except_throw_def]
    · simp [except_pure_def]

theorem forbiddenPairB_comm (f : QLField) (a b : String) :
    forbiddenPairB f a b = forbiddenPairB f b a := by
  unfold forbiddenPairB
  generalize (f.findArgument a).isSome = s1
  generalize (f.findArgument b).isSome = s2
  generalize isVarArg (f.findArgument a) = v1
  generalize isVarArg (f.findArgument b) = v2
  revert s1 s2 v1 v2
  decide

theorem checkPaginationPairs_eq (f : QLField) :
    checkPaginationPairs f =
      (if forbiddenPairB f "first" "last" then
        .error (.conflictingPaginationArguments "first" "last" f.name)
      else if forbiddenPairB f "before" "first" then
        .error (.conflictingPaginationArguments "before" "first" f.name)
      else if forbiddenPairB f "after" "last" then
        .error (.conflictingPaginationArguments "after" "last" f.name)
      else .ok ()) := by
  rw [forbiddenPairB_comm f "before" "first", forbiddenPairB_comm f "after" "last"]
  unfold checkPaginationPairs forbiddenPairB
  simp only [pairCondEq, except_throw_def, except_pure_def]

/-- C5: `validateConnectionField` raises `ConflictingPaginationArguments`
exactly when one of the pairs first+last, before+first, after+last is
applied with at least one non-variable member; when both members of every
applied pair are variables this rule raises nothing (any error the rest of
the validator raises is a different one). -/
theorem c5_theorem (f : QLField) :
    (∃ a b, validateConnectionField f = .error (.conflictingPaginationArguments a b f.name))
      ↔ conflictingPaginationB f = true := by
  unfold validateConnectionField
  rw [checkPaginationPairs_eq]
  by_cases h1 : forbiddenPairB f "first" "last" = true
  · constructor
    · intro _
      unfold conflictingPaginationB
      rw [h1]
      rfl
    · intro _
      refine ⟨"first", "last", ?_⟩
      rw [if_pos h1]
      rfl
  · rw [if_neg h1]
    by_cases h2 : forbiddenPairB f "before" "first" = true
    · constructor
      · intro _
        unfold conflictingPaginationB
        rw [h2]
        simp
      · intro _
        refine ⟨"before", "first", ?_⟩
        rw [if_pos h2]
        rfl
    · rw [if_neg h2]
      by_cases h3 : forbiddenPairB f "after" "last" = true
      · constructor
        · intro _
          unfold conflictingPaginationB
          rw [h3]
          simp
        · intro _
          refine ⟨"after", "last", ?_⟩
          rw [if_pos h3]
          rfl
      · rw [if_neg h3]
        constructor
        · rintro ⟨a, b, hab⟩
          rw [except_bind_error] at hab
          rcases hab with hab | ⟨u, _, hab⟩
          · exact Except.noConfusion hab
          · rw [except_bind_error] at hab
            rcases hab with hab | ⟨nodeT, _, hab⟩
            · exact absurd hab (connectionNodeTypeOf_no_conflict f a b f.name)
            · exact absurd hab
                (checkConnSubfields_no_conflict nodeT.name f
                  (collectRecursiveFields f.selections) a b f.name)
        · intro hc
          exfalso
          unfold conflictingPaginationB at hc
          rw [Bool.not_eq_true] at h1 h2 h3
          rw [h1, h2, h3] at hc
          exact Bool.noConfusion hc


theorem lookupLast_cons_ne {α : Type} (p : String × α) (rest : List (String × α))
    (k : String) (h : p.1 ≠ k) :
    lookupLast (p :: rest) k = lookupLast rest k := by
  simp only [lookupLast]
  cases lookupLast rest k
  · simp [h]
  · rfl

theorem codify_get {pre post : List (String × Printable)} {k : String} {v : Printable}
    (hv : v.isSentinel = false)
    (hpost : ∀ p ∈ post, p.1 ≠ k) :
    jsObjGet (codify (pre ++ (k, v) :: post)) k = some v := by
  simp only [codify, jsObjGet, List.filter_append]
  rw [lookupLast_append]
  have hpostn : lookupLast (post.filter (fun p => !p.2.isSentinel)) k = none :=
    lookupLast_eq_none_of_keys (fun p hp => hpost p (List.mem_of_mem_filter hp))
  have hmid : lookupLast (((k, v) :: post).filter (fun p => !p.2.isSentinel)) k = some v := by
    simp only [List.filter_cons, hv, Bool.not_false, if_true]
    simp [lookupLast, hpostn]
  rw [hmid]

theorem codify_get_head {post : List (String × Printable)} {k : String} {v : Printable}
    (hv : v.isSentinel = false)
    (hpost : ∀ p ∈ post, p.1 ≠ k) :
    jsObjGet (codify ((k, v) :: post)) k = some v :=
  @codify_get [] post k v hv hpost

theorem codify_get_head_keys {post : List (String × Printable)} {k : String} {v : Printable}
    (hv : v.isSentinel = false)
    (hpost : (post.map (fun p => p.1)).contains k = false) :
    jsObjGet (codify ((k, v) :: post)) k = some v := by
  refine codify_get_head hv ?_
  intro p hp hk
  have hmem : p.1 ∈ post.map (fun q => q.1) := List.mem_map_of_mem _ hp
  rw [hk] at hmem
  have hnot : k ∉ post.map (fun q => q.1) := by simpa using hpost
  exact absurd hmem hnot

theorem codify_get_none {props : List (String × Printable)} {k : String}
    (h : ∀ p ∈ props, p.1 = k → p.2.isSentinel = true) :
    jsObjGet (codify props) k = none := by
  simp only [codify, jsObjGet]
  apply lookupLast_eq_none_of_keys
  intro p hp hk
  have hmem := List.mem_of_mem_filter hp
  have hkeep := List.of_mem_filter hp
  rw [h p hmem hk] at hkeep
  exact Bool.noConfusion hkeep

theorem objectify_ok_object {props : List (String × JSValue)} {obj : Printable}
    (h : objectify props = .ok obj) :
    ∃ ps, obj = .object ps := by
  unfold objectify at h
  rw [except_bind_ok] at h
  obtain ⟨ps, _, h⟩ := h
  rw [except_pure_def, Except.ok.injEq] at h
  exact ⟨ps, h.symm⟩

/-- C6: printing a query, mutation, or subscription whose definition has a
root-field count other than one raises `TooManyRootFields` (and produces no
other output) when validation is enabled, and with validation disabled the
root-field-count check is skipped: the printer proceeds directly to the
unguarded body. -/
theorem c6_theorem (ctx : PrinterCtx) (fuel : Nat) (q m s : Operation) :
    (q.fields.length ≠ 1 →
      printQuery ctx (fuel + 1) q true = .error (.tooManyRootFields q.fields.length q.name))
    ∧ printQuery ctx (fuel + 1) q false = printQueryBody ctx fuel q
    ∧ (m.fields.length ≠ 1 →
      printMutation ctx (fuel + 1) m true
        = .error (.tooManyRootFields m.fields.length m.name))
    ∧ printMutation ctx (fuel + 1) m false = printMutationBody ctx fuel m
    ∧ (s.fields.length ≠ 1 →
      printSubscription ctx (fuel + 1) s true
        = .error (.tooManyRootFields s.fields.length s.name))
    ∧ printSubscription ctx (fuel + 1) s false = printSubscriptionBody ctx fuel s := by
  refine ⟨?_, ?_, ?_, ?_, ?_, ?_⟩
  · intro h
    simp [printQuery, h, except_throw_def]
  · simp [printQuery]
  · intro h
    simp [printMutation, h, except_throw_def]
  · simp [printMutation]
  · intro h
    simp [printSubscription, h, except_throw_def]
  · simp [printSubscription]

/-- C6 (witness): a two-root-field operation errors with validation on and
skips the check with validation off. -/
theorem c6_witness :
    printQuery Cex.ctx0 20 Cex.twoFieldOp true
        = .error (.tooManyRootFields Cex.twoFieldOp.fields.length Cex.twoFieldOp.name)
    ∧ printQuery Cex.ctx0 20 Cex.twoFieldOp false = printQueryBody Cex.ctx0 19 Cex.twoFieldOp :=
  ⟨(c6_theorem Cex.ctx0 19 Cex.twoFieldOp Cex.twoFieldOp Cex.twoFieldOp).1 (by decide),
   (c6_theorem Cex.ctx0 19 Cex.twoFieldOp Cex.twoFieldOp Cex.twoFieldOp).2.1⟩



theorem printMutation_ok_body {ctx : PrinterCtx} {fuel : Nat} {m : Operation}
    {ev : Bool} {obj : Printable} (h : printMutation ctx fuel m ev = .ok obj) :
    ∃ n, fuel = n + 1 ∧ printMutationBody ctx n m = .ok obj := by
  cases fuel with
  | zero => exact absurd h (by simp [printMutation, except_throw_def])
  | succ n =>
      unfold printMutation at h
      have h2 : (if m.fields.length ≠ 1 ∧ ev = true then
          (throw (Err.tooManyRootFields m.fields.length m.name) : Except Err Printable)
        else printMutationBody ctx n m) = Except.ok obj := h
      by_cases hc : m.fields.length ≠ 1 ∧ ev = true
      · rw [if_pos hc] at h2
        exact absurd h2 (by simp [except_throw_def])
      · rw [if_neg hc] at h2
        exact ⟨n, rfl, h2⟩

theorem c7_validator (ctx : PrinterCtx) (rf : QLField) :
    validateMutationField ctx rf = .error (.wrongMutationArgumentShape rf.name)
      ↔ ((rf.declaredArgs.map (fun p => p.1)).length ≠ 1
         ∨ (rf.declaredArgs.map (fun p => p.1)).head? ≠ some ctx.inputArgumentName
         ∨ rf.args.length > 1) := by
  unfold validateMutationField
  by_cases h1 : (rf.declaredArgs.map (fun p => p.1)).length ≠ 1
  · rw [if_pos h1]
    exact ⟨fun _ => Or.inl h1, fun _ => rfl⟩
  · rw [if_neg h1]
    by_cases h2 : (rf.declaredArgs.map (fun p => p.1)).head? ≠ some ctx.inputArgumentName
    · rw [if_pos h2]
      exact ⟨fun _ => Or.inr (Or.inl h2), fun _ => rfl⟩
    · rw [if_neg h2]
      by_cases h3 : rf.args.length > 1
      · rw [if_pos h3]
        exact ⟨fun _ => Or.inr (Or.inr h3), fun _ => rfl⟩
      · rw [if_neg h3]
        constructor
        · intro hcon
          exact Except.noConfusion hcon
        · intro hor
          rcases hor with hc | hc | hc
          · exact absurd hc h1
          · exact absurd hc h2
          · exact absurd hc h3

theorem c7_calls_shape {ctx : PrinterCtx} {fuel : Nat} {m : Operation} {obj : Printable}
    {rootField : QLField}
    (hin : ctx.variableNames.contains "input" = false)
    (hrf : m.fields.head? = some rootField)
    (h : printMutationBody ctx fuel m = .ok obj) :
    jsObjGet obj "calls" = some (.array
      [codify [("kind", strLit "Call"), ("metadata", Printable.object []),
               ("name", strLit rootField.name),
               ("value", codify [("kind", strLit "CallVariable"),
                                 ("callVariableName", strLit "input")])]]) := by
  unfold printMutationBody at h
  rw [hrf] at h
  rw [except_bind_ok] at h
  obtain ⟨u, _, h⟩ := h
  rw [except_bind_ok] at h
  obtain ⟨selections, _, h⟩ := h
  rw [except_bind_ok] at h
  obtain ⟨inputType, _, h⟩ := h
  rw [except_bind_ok] at h
  obtain ⟨mObj, _, h⟩ := h
  rw [except_bind_ok] at h
  obtain ⟨emptyMeta, hEm, h⟩ := h
  rw [except_pure_def, Except.ok.injEq] at h
  subst h
  have h0 : objectify ([] : List (String × JSValue)) = .ok (.object []) := rfl
  rw [h0, Except.ok.injEq] at hEm
  subst hEm
  have hpv : printVariable ctx "input"
      = codify [("kind", strLit "CallVariable"), ("callVariableName", strLit "input")] := by
    unfold printVariable
    rw [hin]
    rfl
  rw [hpv]
  exact codify_get_head_keys (by rfl) (by rfl)

/-- C7 (counterexample): the claim's success shape fails when a template
substitution is named `input`: with `Cex.ctxInput` the mutation root field
declares exactly one `input` argument, yet the printed Call's value is the
`tagName.__var(input)` substitution reference, not `CallVariable("input")`. -/
theorem c7_counterexample :
    Cex.mutRoot.declaredArgs.map (fun p => p.1) = ["input"]
    ∧ firstCallValue (okD (printMutation Cex.ctxInput 20 Cex.mutOp true) .sentinelNull)
        = some (.call (.propAccess (identify "Relay.QL") "__var") [.ident "input"])
    ∧ (Printable.call (.propAccess (identify "Relay.QL") "__var") [.ident "input"]).kindTag
        ≠ (codify [("kind", strLit "CallVariable"),
                   ("callVariableName", strLit "input")]).kindTag := by
  refine ⟨rfl, rfl, ?_⟩
  decide

/-- C7 (amended): `validateMutationField` (called by `printMutation`)
raises `WrongMutationArgumentShape` exactly when the schema root field
declares a number of arguments other than one, or its lone declared
argument is not named like the configured input-argument name, or the
applied call supplies more than one argument; and — provided no template
substitution is named `input` — a successfully printed Mutation node's
single Call carries the root field's name and the value
`CallVariable("input")`. -/
theorem c7_theorem :
    (∀ (ctx : PrinterCtx) (rf : QLField),
      validateMutationField ctx rf = .error (.wrongMutationArgumentShape rf.name)
        ↔ ((rf.declaredArgs.map (fun p => p.1)).length ≠ 1
           ∨ (rf.declaredArgs.map (fun p => p.1)).head? ≠ some ctx.inputArgumentName
           ∨ rf.args.length > 1))
    ∧ (∀ (ctx : PrinterCtx) (fuel : Nat) (m : Operation) (ev : Bool) (obj : Printable)
        (rootField : QLField),
        ctx.variableNames.contains "input" = false →
        m.fields.head? = some rootField →
        printMutation ctx fuel m ev = .ok obj →
        jsObjGet obj "calls" = some (.array
          [codify [("kind", strLit "Call"), ("metadata", Printable.object []),
                   ("name", strLit rootField.name),
                   ("value", codify [("kind", strLit "CallVariable"),
                                     ("callVariableName", strLit "input")])]])) := by
  refine ⟨c7_validator, ?_⟩
  intro ctx fuel m ev obj rootField hin hrf h
  obtain ⟨n, rfl, hbody⟩ := printMutation_ok_body h
  exact c7_calls_shape hin hrf hbody

/-- C7 (witness): the example mutation with no substitutions prints its
Call with value `CallVariable("input")`. -/
theorem c7_witness :
    jsObjGet (okD (printMutation Cex.ctx0 20 Cex.mutOp true) .sentinelNull) "calls"
      = some (.array
        [codify [("kind", strLit "Call"), ("metadata", Printable.object []),
                 ("name", strLit Cex.mutRoot.name),
                 ("value", codify [("kind", strLit "CallVariable"),
                                   ("callVariableName", strLit "input")])]]) :=
  c7_theorem.2 Cex.ctx0 20 Cex.mutOp true
    (okD (printMutation Cex.ctx0 20 Cex.mutOp true) .sentinelNull) Cex.mutRoot
    (by decide) (by rfl) (by rfl)



theorem printSelectionsAux_spread {ctx : PrinterCtx} {fuel : Nat} {sels : List QLSelection}
    {fs : List QLField} {pfs : List Printable} {dp : Bool}
    (h : printSelectionsAux ctx fuel sels = .ok (fs, pfs, dp)) :
    dp = hasSpread sels ∧ (hasSpread sels = true → pfs ≠ []) := by
  induction sels generalizing fuel fs pfs dp with
  | nil =>
      simp only [printSelectionsAux, except_pure_def, Except.ok.injEq,
        Prod.mk.injEq] at h
      obtain ⟨h1, h2, h3⟩ := h
      subst h2 h3
      exact ⟨rfl, by intro hc; exact absurd hc (by simp [hasSpread])⟩
  | cons sel rest ih =>
      cases fuel with
      | zero => exact absurd h (by simp [printSelectionsAux, except_throw_def])
      | succ n =>
          cases sel with
          | field f =>
              simp only [printSelectionsAux] at h
              rw [except_bind_ok] at h
              obtain ⟨trip, haux, h⟩ := h
              obtain ⟨fs1, pfs1, dp1⟩ := trip
              simp only [except_pure_def, Except.ok.injEq, Prod.mk.injEq] at h
              obtain ⟨h1, h2, h3⟩ := h
              subst h2 h3
              obtain ⟨hdp, hne⟩ := ih haux
              refine ⟨by simpa [hasSpread] using hdp, ?_⟩
              intro hs
              exact hne (by simpa [hasSpread] using hs)
          | spread nm ds =>
              simp only [printSelectionsAux] at h
              by_cases hds : ds.length ≠ 0
              · rw [if_pos hds] at h
                exact absurd h (by simp [except_throw_def])
              · rw [if_neg hds] at h
                rw [except_bind_ok] at h
                obtain ⟨trip, haux, h⟩ := h
                obtain ⟨fs1, pfs1, dp1⟩ := trip
                simp only [except_pure_def, Except.ok.injEq, Prod.mk.injEq] at h
                obtain ⟨h1, h2, h3⟩ := h
                subst h2 h3
                exact ⟨by simp [hasSpread], fun _ => by simp⟩
          | inlineFrag fr =>
              simp only [printSelectionsAux] at h
              rw [except_bind_ok] at h
              obtain ⟨pf, hpf, h⟩ := h
              rw [except_bind_ok] at h
              obtain ⟨trip, haux, h⟩ := h
              obtain ⟨fs1, pfs1, dp1⟩ := trip
              simp only [except_pure_def, Except.ok.injEq, Prod.mk.injEq] at h
              obtain ⟨h1, h2, h3⟩ := h
              subst h2 h3
              obtain ⟨hdp, _⟩ := ih haux
              refine ⟨by simpa [hasSpread] using hdp, fun _ => by simp⟩

theorem printFields_nil_nil {ctx : PrinterCtx} {fuel : Nat} {pt : QLType}
    {ig : Bool} {ps : List Printable}
    (h : printFields ctx fuel [] pt [] ig = .ok ps) : ps = [] := by
  cases fuel with
  | zero => exact absurd h (by simp [printFields, except_throw_def])
  | succ n =>
      simp only [printFields] at h
      rw [except_bind_ok] at h
      obtain ⟨⟨pe, gen⟩, hexp, h⟩ := h
      rw [except_bind_ok] at h
      obtain ⟨pg, hgen, h⟩ := h
      rw [except_pure_def, Except.ok.injEq] at h
      have hreq : requisiteAfter pt [] [] = [] := by
        simp [requisiteAfter]
      rw [hreq] at hexp hgen
      cases n with
      | zero => exact absurd hexp (by simp [printExplicitFields, except_throw_def])
      | succ n2 =>
          have hexp2 : pe = [] ∧ gen = [] := by
            simp only [printExplicitFields, except_pure_def, Except.ok.injEq] at hexp
            exact ⟨(congrArg (fun t => t.1) hexp).symm, (congrArg (fun t => t.2) hexp).symm⟩
          obtain ⟨rfl, rfl⟩ := hexp2
          have hgen2 : pg = [] := by
            simp only [printGeneratedFields, except_pure_def, Except.ok.injEq] at hgen
            exact hgen.symm
          subst hgen2
          exact h.symm

/-- C8: a successfully printed selection set is wrapped in the explicit
runtime flatten wrapper (`[].concat.apply([], ...)`) precisely when a
fragment-spread reference was printed among the selections: with a spread
present the result is the flatten wrapper around a nonempty array literal;
with no spread it is a plain (nonempty) array literal or, when there is
nothing to print at all, the null sentinel — and the null sentinel is only
returned when no spread was present. -/
theorem c8_theorem {ctx : PrinterCtx} {fuel : Nat} {sels : List QLSelection}
    {parentType : QLType} {req : List String} {extra : List QLFragment}
    {ig : Bool} {r : Printable}
    (h : printSelections ctx fuel sels parentType req extra ig = .ok r) :
    (hasSpread sels = true → ∃ els, els ≠ [] ∧ r = shallowFlatten (.array els))
    ∧ (hasSpread sels = false →
        r = .sentinelNull ∨ ∃ els, els ≠ [] ∧ r = .array els)
    ∧ (hasSpread sels = false → ∀ arr, r ≠ shallowFlatten arr)
    ∧ (sels = [] → extra = [] → req = [] → r = .sentinelNull)
    ∧ (r = .sentinelNull → hasSpread sels = false) := by
  cases fuel with
  | zero => exact absurd h (by simp [printSelections, except_throw_def])
  | succ n =>
      simp only [printSelections] at h
      rw [except_bind_ok] at h
      obtain ⟨trip, haux, h⟩ := h
      obtain ⟨fields, pfs, dp⟩ := trip
      dsimp only at h
      rw [except_bind_ok] at h
      obtain ⟨extraP, hextra, h⟩ := h
      rw [except_bind_ok] at h
      obtain ⟨printedFields, hpf, h⟩ := h
      obtain ⟨hdp, hne⟩ := printSelectionsAux_spread haux
      subst hdp
      by_cases hlen : (printedFields ++ (pfs ++ extraP)).length ≠ 0
      · rw [if_pos hlen] at h
        rw [except_pure_def, Except.ok.injEq] at h
        subst h
        have hnil : printedFields ++ (pfs ++ extraP) ≠ [] := by
          intro hcon
          rw [hcon] at hlen
          exact hlen rfl
        constructor
        · intro hs
          rw [hs]
          rw [if_pos rfl]
          exact ⟨printedFields ++ (pfs ++ extraP), hnil, rfl⟩
        constructor
        · intro hs
          rw [hs]
          rw [if_neg (by simp)]
          exact Or.inr ⟨printedFields ++ (pfs ++ extraP), hnil, rfl⟩
        constructor
        · intro hs arr
          rw [hs]
          rw [if_neg (by simp)]
          intro hcon
          have hk := congrArg Printable.kindTag hcon
          rw [show (Printable.array (printedFields ++ (pfs ++ extraP))).kindTag
                = "array" from rfl,
              show (shallowFlatten arr).kindTag = "call" from rfl] at hk
          exact absurd hk (by decide)
        constructor
        · intro hsel hex hreq
          subst hsel hex hreq
          exfalso
          have hfields : fields = [] ∧ pfs = [] := by
            simp only [printSelectionsAux, except_pure_def, Except.ok.injEq,
              Prod.mk.injEq] at haux
            exact ⟨haux.1.symm, haux.2.1.symm⟩
          obtain ⟨rfl, rfl⟩ := hfields
          have hextraP : extraP = [] := by
            simp only [printFragmentList, except_pure_def, Except.ok.injEq] at hextra
            exact hextra.symm
          subst hextraP
          have := printFields_nil_nil hpf
          subst this
          exact hlen rfl
        · intro hsent
          by_contra hcon
          rw [Bool.not_eq_false] at hcon
          rw [hcon] at hsent
          rw [if_pos rfl] at hsent
          have hk := congrArg Printable.kindTag hsent
          rw [show (shallowFlatten (Printable.array (printedFields ++ (pfs ++ extraP)))).kindTag
                = "call" from rfl,
              show Printable.sentinelNull.kindTag = "sentinelNull" from rfl] at hk
          exact absurd hk (by decide)
      · rw [if_neg hlen] at h
        rw [except_pure_def, Except.ok.injEq] at h
        subst h
        have hempty : printedFields ++ (pfs ++ extraP) = [] := by
          rcases List.eq_nil_or_concat (printedFields ++ (pfs ++ extraP)) with he | ⟨_, _, he⟩
          · exact he
          · rw [he] at hlen
            simp at hlen
        have hpfs : pfs = [] := by
          rcases List.append_eq_nil.mp hempty with ⟨_, h2⟩
          exact (List.append_eq_nil.mp h2).1
        refine ⟨?_, fun _ => Or.inl rfl, ?_, fun _ _ _ => rfl, fun _ => ?_⟩
        · intro hs
          exact absurd hpfs (hne hs)
        · intro _ arr hcon
          have hk := congrArg Printable.kindTag hcon
          rw [show Printable.sentinelNull.kindTag = "sentinelNull" from rfl,
              show (shallowFlatten arr).kindTag = "call" from rfl] at hk
          exact absurd hk (by decide)
        · by_contra hcon
          rw [Bool.not_eq_false] at hcon
          exact absurd hpfs (hne hcon)

/-- C8 (witness): printing a single spread selection yields a flattened
nonempty array. -/
theorem c8_witness :
    ∃ els, els ≠ [] ∧
      okD (printSelections Cex.ctx0 5 [.spread "frag" []] Cex.concT [] [] false)
          Printable.sentinelNull = shallowFlatten (.array els) :=
  (@c8_theorem Cex.ctx0 5 [.spread "frag" []] Cex.concT [] [] false
    (okD (printSelections Cex.ctx0 5 [.spread "frag" []] Cex.concT [] [] false)
      Printable.sentinelNull) (by rfl)).1 (by rfl)



theorem countArgs_cons (sp : Classic.GSpread) (rest : List Classic.GSpread) :
    Classic.countArgumentsSpreads (sp :: rest)
      = (if Classic.isArgumentsSpread sp then 1 else 0)
        + Classic.countArgumentsSpreads rest := by
  simp only [Classic.countArgumentsSpreads, List.filter_cons]
  split
  · simp [Nat.add_comm]
  · simp

theorem isArgumentsSpread_single (fragmentName : String) (d : Classic.GDirective) :
    Classic.isArgumentsSpread ⟨fragmentName, [d]⟩ = true ↔ d.name = "arguments" := by
  simp [Classic.isArgumentsSpread]

theorem processFragmentSpread_spec {st : Classic.SpreadState} {sp : Classic.GSpread}
    {st2 : Classic.SpreadState} {nm : String}
    (h : Classic.processFragmentSpread st sp = .ok (st2, nm)) :
    (Classic.isArgumentsSpread sp = true →
      st2.fragmentID = st.fragmentID + 1
      ∧ nm = sp.fragmentName ++ "_args" ++ toString (st.fragmentID + 1))
    ∧ (Classic.isArgumentsSpread sp = false → st2.fragmentID = st.fragmentID) := by
  obtain ⟨fragmentName, directives⟩ := sp
  cases directives with
  | nil =>
      simp only [Classic.processFragmentSpread, Except.ok.injEq, Prod.mk.injEq] at h
      obtain ⟨h1, _⟩ := h
      constructor
      · intro hc
        exact absurd hc (by simp [Classic.isArgumentsSpread])
      · intro _
        rw [← h1]
  | cons directive rest =>
      cases rest with
      | cons d2 r2 =>
          exfalso
          simp only [Classic.processFragmentSpread] at h
          rw [if_pos (by simp)] at h
          exact absurd h (by simp [except_throw_def])
      | nil =>
          simp only [Classic.processFragmentSpread] at h
          rw [if_neg (by simp)] at h
          by_cases hA : directive.name = "arguments"
          · rw [if_pos hA] at h
            rw [except_bind_ok] at h
            obtain ⟨vp, hvp, h⟩ := h
            obtain ⟨vars, props⟩ := vp
            dsimp only at h
            simp only [Except.ok.injEq, Prod.mk.injEq] at h
            obtain ⟨h1, h2⟩ := h
            constructor
            · intro _
              exact ⟨by rw [← h1], by rw [← h2]⟩
            · intro hc
              have hT : Classic.isArgumentsSpread ⟨fragmentName, [directive]⟩ = true :=
                (isArgumentsSpread_single fragmentName directive).mpr hA
              rw [hT] at hc
              exact Bool.noConfusion hc
          · rw [if_neg hA] at h
            have hisA : Classic.isArgumentsSpread ⟨fragmentName, [directive]⟩ = false := by
              rw [Bool.eq_false_iff]
              intro hc
              exact hA ((isArgumentsSpread_single fragmentName directive).mp hc)
            by_cases hR : directive.name = "relay"
            · rw [if_pos hR] at h
              by_cases hshape : directive.args.length ≠ 1
                  ∨ (directive.args.head?.map (fun p => p.1)) ≠ some "mask"
              · rw [if_pos hshape] at h
                exact absurd h (by simp [except_throw_def])
              · rw [if_neg hshape] at h
                simp only [Except.ok.injEq, Prod.mk.injEq] at h
                obtain ⟨h1, _⟩ := h
                refine ⟨fun hc => ?_, fun _ => by rw [← h1]⟩
                rw [hisA] at hc
                exact Bool.noConfusion hc
            · rw [if_neg hR] at h
              exact absurd h (by simp [except_throw_def])

/-- C2 (counterexample): in one definition, an `@arguments` spread of `Foo`
followed by an `@arguments` spread of a different fragment `Bar` yields the
substitution names `Foo_args1` and `Bar_args2`: the counter is shared, so
`Bar`'s first `@arguments` spread is not named `Bar_args1` as the claim
requires. -/
theorem c2_counterexample :
    (okD (Classic.processSpreads Classic.initState
        [⟨"Foo", [⟨"arguments", [("x", .variable "y")]⟩]⟩,
         ⟨"Bar", [⟨"arguments", [("z", .variable "w")]⟩]⟩])
      (Classic.initState, [])).2 = ["Foo_args1", "Bar_args2"]
    ∧ ("Bar_args2" : String) ≠ "Bar_args1" :=
  ⟨rfl, by decide⟩

/-- C2 (amended): the `@arguments` slot counter is a single per-definition
counter shared by all fragments: the substitution name assigned to the
i-th spread, when it carries `@arguments`, is
`<fragment>_args<N>` where `N` counts all `@arguments` spreads of the
definition up to and including this one (continuing from the state's
starting counter); non-`@arguments` spreads leave the counter unchanged. -/
theorem c2_theorem (spreads : List Classic.GSpread) (st stF : Classic.SpreadState)
    (names : List String)
    (h : Classic.processSpreads st spreads = .ok (stF, names)) :
    stF.fragmentID = st.fragmentID + Classic.countArgumentsSpreads spreads
    ∧ ∀ i, (hi : i < spreads.length) →
        Classic.isArgumentsSpread spreads[i] = true →
        names[i]? = some (spreads[i].fragmentName ++ "_args"
          ++ toString (st.fragmentID
            + Classic.countArgumentsSpreads (spreads.take (i + 1)))) := by
  induction spreads generalizing st stF names with
  | nil =>
      simp only [Classic.processSpreads, Except.ok.injEq, Prod.mk.injEq] at h
      obtain ⟨h1, _⟩ := h
      constructor
      · rw [← h1]
        simp [Classic.countArgumentsSpreads]
      · intro i hi
        exact absurd hi (by simp)
  | cons sp rest ih =>
      simp only [Classic.processSpreads] at h
      rw [except_bind_ok] at h
      obtain ⟨p1, hsp, h⟩ := h
      obtain ⟨st1, nm⟩ := p1
      dsimp only at h
      rw [except_bind_ok] at h
      obtain ⟨p2, hrest, h⟩ := h
      obtain ⟨stF2, names2⟩ := p2
      dsimp only at h
      simp only [except_pure_def, Except.ok.injEq, Prod.mk.injEq] at h
      obtain ⟨h1, h2⟩ := h
      subst h1 h2
      obtain ⟨hid, hidx⟩ := ih st1 stF2 names2 hrest
      obtain ⟨hargY, hargN⟩ := processFragmentSpread_spec hsp
      have hstep : st1.fragmentID
          = st.fragmentID + (if Classic.isArgumentsSpread sp then 1 else 0) := by
        by_cases hc : Classic.isArgumentsSpread sp = true
        · rw [if_pos hc]
          exact (hargY hc).1
        · rw [Bool.not_eq_true] at hc
          rw [if_neg (by rw [hc]; simp)]
          simpa using hargN hc
      constructor
      · rw [hid, hstep, countArgs_cons]
        omega
      · intro i hi harg
        cases i with
        | zero =>
            simp only [List.getElem_cons_zero] at harg
            obtain ⟨_, hnm⟩ := hargY harg
            simp only [List.getElem?_cons_zero, List.getElem_cons_zero, hnm]
            have htake : Classic.countArgumentsSpreads ((sp :: rest).take 1) = 1 := by
              simp [Classic.countArgumentsSpreads, List.filter_cons, harg]
            rw [htake]
        | succ j =>
            simp only [List.getElem_cons_succ] at harg
            have hj : j < rest.length := by
              simpa using hi
            have := hidx j hj harg
            simp only [List.getElem?_cons_succ, List.getElem_cons_succ, this]
            have htake : Classic.countArgumentsSpreads ((sp :: rest).take (j + 1 + 1))
                = (if Classic.isArgumentsSpread sp then 1 else 0)
                  + Classic.countArgumentsSpreads (rest.take (j + 1)) := by
              rw [List.take_succ_cons, countArgs_cons]
            rw [htake, hstep]
            rw [Nat.add_assoc]

/-- C2 (witness): in the two-spread example the amended numbering gives the
second spread the shared-counter name `Bar_args2`. -/
theorem c2_witness :
    (okD (Classic.processSpreads Classic.initState
        [⟨"Foo", [⟨"arguments", [("x", .variable "y")]⟩]⟩,
         ⟨"Bar", [⟨"arguments", [("z", .variable "w")]⟩]⟩])
      (Classic.initState, [])).2[1]? = some "Bar_args2" :=
  ( c2_theorem
    [⟨"Foo", [⟨"arguments", [("x", .variable "y")]⟩]⟩,
     ⟨"Bar", [⟨"arguments", [("z", .variable "w")]⟩]⟩]
    Classic.initState
    (okD (Classic.processSpreads Classic.initState
        [⟨"Foo", [⟨"arguments", [("x", .variable "y")]⟩]⟩,
         ⟨"Bar", [⟨"arguments", [("z", .variable "w")]⟩]⟩])
      (Classic.initState, [])).1
    (okD (Classic.processSpreads Classic.initState
        [⟨"Foo", [⟨"arguments", [("x", .variable "y")]⟩]⟩,
         ⟨"Bar", [⟨"arguments", [("z", .variable "w")]⟩]⟩])
      (Classic.initState, [])).2
    (by rfl)).2 1 (by decide) (by decide)



/-- C9 (counterexample): a spread carrying a single `@arguments` directive
is rewritten successfully (to an args-numbered slot), not rejected, so
"any other single directive raises an error" fails at `@arguments`. -/
theorem c9_counterexample :
    Classic.processFragmentSpread Classic.initState
        ⟨"Foo", [⟨"arguments", [("x", .variable "y")]⟩]⟩
      = .ok (okD (Classic.processFragmentSpread Classic.initState
          ⟨"Foo", [⟨"arguments", [("x", .variable "y")]⟩]⟩)
        (Classic.initState, ""))
    ∧ (okD (Classic.processFragmentSpread Classic.initState
          ⟨"Foo", [⟨"arguments", [("x", .variable "y")]⟩]⟩)
        (Classic.initState, "")).2 = "Foo_args1" :=
  ⟨rfl, rfl⟩

/-- C9 (amended): normalizing a fragment spread: with zero directives the
slot is the target fragment name and the mask is true; with exactly one
`@relay` directive the directive must have exactly one argument named
`mask` (otherwise an error is raised), the slot is the original fragment
name and the mask is the supplied boolean; a single directive other than
`@relay` and `@arguments` raises `UnsupportedSpreadDirective`; and more
than one directive on one spread raises `ConflictingSpreadDirectives`. -/
theorem c9_theorem (st : Classic.SpreadState) (fragmentName : String) :
    (Classic.processFragmentSpread st ⟨fragmentName, []⟩
      = .ok ({ st with fragments := (Classic.setFragment st.fragments fragmentName
               ⟨fragmentName, none, true⟩) }, fragmentName))
    ∧ (∀ b, Classic.processFragmentSpread st
          ⟨fragmentName, [⟨"relay", [("mask", Classic.GValue.boolean b)]⟩]⟩
        = .ok ({ st with fragments := (Classic.setFragment st.fragments fragmentName
                 ⟨fragmentName, none, b⟩) }, fragmentName))
    ∧ (∀ args, (args.length ≠ 1 ∨ (args.head?.map (fun p => p.1)) ≠ some "mask") →
        Classic.processFragmentSpread st ⟨fragmentName, [⟨"relay", args⟩]⟩
          = .error .relayMaskArgumentExpected)
    ∧ (∀ dname args, dname ≠ "arguments" → dname ≠ "relay" →
        Classic.processFragmentSpread st ⟨fragmentName, [⟨dname, args⟩]⟩
          = .error (.unsupportedSpreadDirective dname))
    ∧ (∀ d1 d2 rest, Classic.processFragmentSpread st ⟨fragmentName, d1 :: d2 :: rest⟩
        = .error .conflictingSpreadDirectives) := by
  refine ⟨rfl, ?_, ?_, ?_, ?_⟩
  · intro b
    rfl
  · intro args hbad
    simp only [Classic.processFragmentSpread]
    rw [if_neg (show ¬(([] : List Classic.GDirective).length ≠ 0) by simp)]
    rw [if_neg (show ¬(("relay" : String) = "arguments") by decide)]
    rw [if_pos trivial]
    rw [if_pos hbad]
    rfl
  · intro dname args h1 h2
    simp only [Classic.processFragmentSpread]
    rw [if_neg (by simp), if_neg h1, if_neg h2]
    rfl
  · intro d1 d2 rest
    simp only [Classic.processFragmentSpread]
    rw [if_pos (by simp)]
    rfl

/-- C9 (witness): a `@relay` directive without arguments errors, an unknown
directive errors, and `@relay(mask: false)` records an unmasked slot under
the fragment's own name. -/
theorem c9_witness :
    Classic.processFragmentSpread Classic.initState ⟨"Foo", [⟨"relay", []⟩]⟩
      = .error .relayMaskArgumentExpected
    ∧ Classic.processFragmentSpread Classic.initState ⟨"Foo", [⟨"pic", []⟩]⟩
      = .error (.unsupportedSpreadDirective "pic")
    ∧ Classic.processFragmentSpread Classic.initState
        ⟨"Foo", [⟨"relay", [("mask", Classic.GValue.boolean false)]⟩]⟩
      = .ok ({ Classic.initState with fragments := (Classic.setFragment
            Classic.initState.fragments "Foo" ⟨"Foo", none, false⟩) }, "Foo") :=
  ⟨(c9_theorem Classic.initState "Foo").2.2.1 [] (by decide),
   (c9_theorem Classic.initState "Foo").2.2.2.1 "pic" [] (by decide) (by decide),
   (c9_theorem Classic.initState "Foo").2.1 false⟩

-- Structural lemmas about field-name bookkeeping: the key lookup on the
-- last chunk of the metadata, membership and nodup preservation of the
-- requisite-set operations, and the name each printed field carries.

theorem lookupLast_append_right {α : Type} {xs ys : List (String × α)} {k : String}
    {v : α} (h : lookupLast ys k = some v) : lookupLast (xs ++ ys) k = some v := by
  rw [lookupLast_append, h]

theorem insertName_mem_self (s : List String) (n : String) : n ∈ insertName s n := by
  unfold insertName
  by_cases hc : s.contains n = true
  · rw [if_pos hc]
    simpa using hc
  · rw [if_neg hc]
    simp

theorem insertName_mem_of_mem {s : List String} {x : String} (n : String)
    (h : x ∈ s) : x ∈ insertName s n := by
  unfold insertName
  by_cases hc : s.contains n = true
  · rw [if_pos hc]
    exact h
  · rw [if_neg hc]
    exact List.mem_append_left _ h

theorem insertName_nodup {s : List String} (n : String) (h : s.Nodup) :
    (insertName s n).Nodup := by
  unfold insertName
  by_cases hc : s.contains n = true
  · rw [if_pos hc]
    exact h
  · rw [if_neg hc]
    have hn : n ∉ s := by simpa using hc
    simp [List.nodup_append, h, hn]

theorem requisiteAfter_mem {pt : QLType} {fields : List QLField} {req : List String}
    {x : String} (h : x ∈ req) : x ∈ requisiteAfter pt fields req := by
  unfold requisiteAfter
  by_cases hc : (pt.isConnection && pt.hasField "pageInfo"
      && fields.any (fun fl => fl.name = "edges")) = true
  · rw [if_pos hc]
    exact insertName_mem_of_mem _ h
  · rw [if_neg hc]
    exact h

theorem requisiteAfter_nodup {pt : QLType} {fields : List QLField} {req : List String}
    (h : req.Nodup) : (requisiteAfter pt fields req).Nodup := by
  unfold requisiteAfter
  by_cases hc : (pt.isConnection && pt.hasField "pageInfo"
      && fields.any (fun fl => fl.name = "edges")) = true
  · rw [if_pos hc]
    exact insertName_nodup _ h
  · rw [if_neg hc]
    exact h

theorem generateField_name {t : QLType} {nm : String} {gf : QLField}
    (hgen : generatesOwnNameB t = true) (h : t.generateField nm = some gf) :
    gf.name = nm := by
  unfold QLType.generateField at h
  cases hfind : t.generatedFields.find? (fun p => p.1 = nm) with
  | none =>
      rw [hfind] at h
      exact Option.noConfusion h
  | some pr =>
      rw [hfind] at h
      have h2 : some pr.2 = some gf := h
      have h3 : pr.2 = gf := Option.some.inj h2
      have hmem := List.mem_of_find?_eq_some hfind
      have hpred := List.find?_some hfind
      have h1 : pr.1 = nm := of_decide_eq_true hpred
      have hall := List.all_eq_true.mp hgen pr hmem
      have h4 : pr.2.name = pr.1 := eq_of_beq hall
      rw [← h3, h4, h1]

theorem count_foldl_erase (names : List String) :
    ∀ (g : List String) (nm : String),
      (names.foldl (fun acc s => acc.erase s) g).count nm
        = g.count nm - min (g.count nm) (names.count nm) := by
  induction names with
  | nil =>
      intro g nm
      simp
  | cons s rest ih =>
      intro g nm
      rw [List.foldl_cons]
      by_cases hs : s = nm
      · subst hs
        rw [ih, List.count_erase_self, List.count_cons_self]
        omega
      · rw [ih, List.count_erase_of_ne (fun hc => hs hc.symm),
            List.count_cons_of_ne (fun hc => hs hc.symm)]

theorem printField_ok_parts {ctx : PrinterCtx} {fuel : Nat} {f : QLField}
    {pt : QLType} {rs gs : List String} {ig : Bool} {p : Printable}
    (h : printField ctx fuel f pt rs gs ig = .ok p) :
    ∃ n children calls mdObj,
      fuel = n + 1
      ∧ printSelections ctx n f.selections f.type (printFieldChildReq f.type)
          (printFieldIdFragment f.type f.selections) ig = .ok children
      ∧ printRelayDirectiveMetadata f.directives (fieldMetadata f rs gs) = .ok mdObj
      ∧ ((f.args.length = 0 → calls = Printable.sentinelNull)
          ∧ (f.args.length ≠ 0 → ∃ cs, calls = Printable.array cs))
      ∧ p = codify
          [("alias", aliasProp f.aliasName),
           ("calls", calls),
           ("children", children),
           ("directives", printDirectives ctx f.directives),
           ("fieldName", strLit f.name),
           ("kind", strLit "Field"),
           ("metadata", mdObj),
           ("type", strLit f.type.name)] := by
  cases fuel with
  | zero => exact absurd h (by simp [printField, except_throw_def])
  | succ n =>
      simp only [printField] at h
      rw [except_bind_ok] at h
      obtain ⟨u1, hv1, h⟩ := h
      rw [except_bind_ok] at h
      obtain ⟨u2, hv2, h⟩ := h
      rw [except_bind_ok] at h
      obtain ⟨children, hch, h⟩ := h
      by_cases hargs : f.args.length ≠ 0
      · rw [if_pos hargs] at h
        rw [except_bind_ok] at h
        obtain ⟨cs, hcs, h⟩ := h
        rw [except_bind_ok] at h
        obtain ⟨calls, hcalls, h⟩ := h
        rw [except_pure_def, Except.ok.injEq] at hcalls
        rw [except_bind_ok] at h
        obtain ⟨mdObj, hmd, h⟩ := h
        rw [except_pure_def, Except.ok.injEq] at h
        exact ⟨n, children, calls, mdObj, rfl, hch, hmd,
          ⟨fun hz => absurd hz hargs, fun _ => ⟨cs, hcalls.symm⟩⟩, h.symm⟩
      · rw [if_neg hargs] at h
        rw [except_bind_ok] at h
        obtain ⟨calls, hcalls, h⟩ := h
        rw [except_pure_def, Except.ok.injEq] at hcalls
        rw [except_bind_ok] at h
        obtain ⟨mdObj, hmd, h⟩ := h
        rw [except_pure_def, Except.ok.injEq] at h
        exact ⟨n, children, calls, mdObj, rfl, hch, hmd,
          ⟨fun _ => hcalls.symm, fun hnz => absurd hnz hargs⟩, h.symm⟩

theorem printField_fieldName {ctx : PrinterCtx} {fuel : Nat} {f : QLField}
    {pt : QLType} {rs gs : List String} {ig : Bool} {p : Printable}
    (h : printField ctx fuel f pt rs gs ig = .ok p) :
    fieldNameOf p = some f.name := by
  obtain ⟨n, children, calls, mdObj, _, _, _, _, hp⟩ := printField_ok_parts h
  subst hp
  unfold fieldNameOf
  have hsplit :
      [("alias", aliasProp f.aliasName), ("calls", calls), ("children", children),
       ("directives", printDirectives ctx f.directives),
       ("fieldName", strLit f.name), ("kind", strLit "Field"),
       ("metadata", mdObj), ("type", strLit f.type.name)]
      = [("alias", aliasProp f.aliasName), ("calls", calls), ("children", children),
         ("directives", printDirectives ctx f.directives)]
        ++ ("fieldName", strLit f.name)
        :: [("kind", strLit "Field"), ("metadata", mdObj),
            ("type", strLit f.type.name)] := rfl
  rw [hsplit,
      codify_get (show (strLit f.name).isSentinel = false from rfl)
        (by intro q hq; fin_cases hq <;> simp)]
  rfl

theorem printField_metadataOf {ctx : PrinterCtx} {fuel : Nat} {f : QLField}
    {pt : QLType} {rs gs : List String} {ig : Bool} {p : Printable}
    (h : printField ctx fuel f pt rs gs ig = .ok p) :
    printRelayDirectiveMetadata f.directives (fieldMetadata f rs gs)
      = .ok (metadataOf p) := by
  obtain ⟨n, children, calls, mdObj, _, _, hmd, _, hp⟩ := printField_ok_parts h
  subst hp
  obtain ⟨ps, hps⟩ := printRelayDirectiveMetadata_ok_object hmd
  subst hps
  have hsplit :
      [("alias", aliasProp f.aliasName), ("calls", calls), ("children", children),
       ("directives", printDirectives ctx f.directives),
       ("fieldName", strLit f.name), ("kind", strLit "Field"),
       ("metadata", Printable.object ps), ("type", strLit f.type.name)]
      = [("alias", aliasProp f.aliasName), ("calls", calls), ("children", children),
         ("directives", printDirectives ctx f.directives),
         ("fieldName", strLit f.name), ("kind", strLit "Field")]
        ++ ("metadata", Printable.object ps)
        :: [("type", strLit f.type.name)] := rfl
  have hget : jsObjGet (codify
      ([("alias", aliasProp f.aliasName), ("calls", calls), ("children", children),
        ("directives", printDirectives ctx f.directives),
        ("fieldName", strLit f.name), ("kind", strLit "Field")]
       ++ ("metadata", Printable.object ps)
       :: [("type", strLit f.type.name)])) "metadata" = some (Printable.object ps) :=
    codify_get (show (Printable.object ps).isSentinel = false from rfl)
      (by intro q hq; fin_cases hq <;> simp)
  unfold metadataOf
  rw [hsplit, hget]
  exact hmd

theorem printField_isRequisite {ctx : PrinterCtx} {fuel : Nat} {f : QLField}
    {pt : QLType} {rs gs : List String} {ig : Bool} {p : Printable}
    (hc : rs.contains f.name = true)
    (h : printField ctx fuel f pt rs gs ig = .ok p) :
    jsObjGet (metadataOf p) "isRequisite" = some (.lit (.bool true)) := by
  have hmd := printField_metadataOf h
  have hlast : lookupLast (fieldMetadata f rs gs) "isRequisite"
      = some (JSValue.bool true) := by
    unfold fieldMetadata
    rw [if_pos hc]
    exact lookupLast_append_right (by simp [lookupLast])
  obtain ⟨l, hl, hget⟩ := printRelayDirectiveMetadata_lookup hmd hlast
  have hl2 : Printable.lit (.bool true) = l := by
    have h2 : Except.ok (ε := Err) (Printable.lit (.bool true)) = Except.ok l := hl
    exact Except.ok.inj h2
  rw [hget, ← hl2]

theorem printExplicitFields_names {ctx : PrinterCtx} {pt : QLType} {rs : List String}
    {ig : Bool} :
    ∀ {fields : List QLField} {fuel : Nat} {gen : List String} {ps : List Printable}
      {genF : List String},
      printExplicitFields ctx fuel fields pt rs gen ig = .ok (ps, genF) →
      namesOf ps = fields.map QLField.name
        ∧ genF = fields.foldl (fun g fl => g.erase fl.name) gen := by
  intro fields
  induction fields with
  | nil =>
      intro fuel gen ps genF h
      cases fuel with
      | zero => exact absurd h (by simp [printExplicitFields, except_throw_def])
      | succ n =>
          simp only [printExplicitFields, except_pure_def, Except.ok.injEq,
            Prod.mk.injEq] at h
          obtain ⟨h1, h2⟩ := h
          subst h1
          subst h2
          exact ⟨rfl, rfl⟩
  | cons f rest ih =>
      intro fuel gen ps genF h
      cases fuel with
      | zero => exact absurd h (by simp [printExplicitFields, except_throw_def])
      | succ n =>
          simp only [printExplicitFields] at h
          rw [except_bind_ok] at h
          obtain ⟨p, hp, h⟩ := h
          rw [except_bind_ok] at h
          obtain ⟨pair, hrec, h⟩ := h
          obtain ⟨ps1, genF1⟩ := pair
          dsimp only at h
          rw [except_pure_def, Except.ok.injEq, Prod.mk.injEq] at h
          obtain ⟨h1, h2⟩ := h
          subst h1
          subst h2
          obtain ⟨hn, hg⟩ := ih hrec
          have hn2 : List.filterMap fieldNameOf ps1 = rest.map QLField.name := hn
          constructor
          · simp only [namesOf, List.filterMap_cons, printField_fieldName hp, hn2,
              List.map_cons]
          · rw [List.foldl_cons]
            exact hg

theorem printGeneratedFields_names {ctx : PrinterCtx} {pt : QLType}
    {rs gs : List String} {ig : Bool} (hgen : generatesOwnNameB pt = true) :
    ∀ {names : List String} {fuel : Nat} {ps : List Printable},
      printGeneratedFields ctx fuel names pt rs gs ig = .ok ps →
      namesOf ps = names := by
  intro names
  induction names with
  | nil =>
      intro fuel ps h
      cases fuel with
      | zero => exact absurd h (by simp [printGeneratedFields, except_throw_def])
      | succ n =>
          simp only [printGeneratedFields, except_pure_def, Except.ok.injEq] at h
          rw [← h]
          rfl
  | cons nm rest ih =>
      intro fuel ps h
      cases fuel with
      | zero => exact absurd h (by simp [printGeneratedFields, except_throw_def])
      | succ n =>
          simp only [printGeneratedFields] at h
          cases hgf : pt.generateField nm with
          | none =>
              rw [hgf] at h
              exact absurd h (by simp [except_throw_def])
          | some gf =>
              rw [hgf] at h
              rw [except_bind_ok] at h
              obtain ⟨p, hp, h⟩ := h
              rw [except_bind_ok] at h
              obtain ⟨ps1, hrec, h⟩ := h
              rw [except_pure_def, Except.ok.injEq] at h
              subst h
              have hname := generateField_name hgen hgf
              have hn2 : List.filterMap fieldNameOf ps1 = rest := ih hrec
              simp only [namesOf, List.filterMap_cons, printField_fieldName hp, hn2,
                hname]

theorem printFields_names {ctx : PrinterCtx} {fuel : Nat} {fields : List QLField}
    {pt : QLType} {req : List String} {ig : Bool} {ps : List Printable}
    (hgen : generatesOwnNameB pt = true)
    (h : printFields ctx fuel fields pt req ig = .ok ps) :
    namesOf ps = fields.map QLField.name
      ++ fields.foldl (fun g fl => g.erase fl.name) (requisiteAfter pt fields req) := by
  cases fuel with
  | zero => exact absurd h (by simp [printFields, except_throw_def])
  | succ n =>
      simp only [printFields] at h
      rw [except_bind_ok] at h
      obtain ⟨pair, hexp, h⟩ := h
      obtain ⟨pe, genF⟩ := pair
      dsimp only at h
      rw [except_bind_ok] at h
      obtain ⟨pg, hg, h⟩ := h
      rw [except_pure_def, Except.ok.injEq] at h
      subst h
      obtain ⟨hne, hgenF⟩ := printExplicitFields_names hexp
      subst hgenF
      have hng := printGeneratedFields_names hgen hg
      have hne2 : List.filterMap fieldNameOf pe = fields.map QLField.name := hne
      have hng2 : List.filterMap fieldNameOf pg
          = fields.foldl (fun g fl => g.erase fl.name) (requisiteAfter pt fields req) :=
        hng
      unfold namesOf
      rw [List.filterMap_append, hne2, hng2]

theorem printFields_count {ctx : PrinterCtx} {fuel : Nat} {fields : List QLField}
    {pt : QLType} {req : List String} {ig : Bool} {ps : List Printable} {nm : String}
    (hgen : generatesOwnNameB pt = true)
    (hmem : nm ∈ requisiteAfter pt fields req)
    (hnodup : (requisiteAfter pt fields req).Nodup)
    (hcount : (fields.map QLField.name).count nm ≤ 1)
    (h : printFields ctx fuel fields pt req ig = .ok ps) :
    countFieldName ps nm = 1 := by
  have hn := printFields_names hgen h
  unfold countFieldName
  rw [show namesOf ps = _ from hn, List.count_append]
  have hfold :
      fields.foldl (fun g fl => g.erase fl.name) (requisiteAfter pt fields req)
        = (fields.map QLField.name).foldl (fun g s => g.erase s)
            (requisiteAfter pt fields req) := by
    rw [List.foldl_map]
  rw [hfold, count_foldl_erase]
  have h1 : (requisiteAfter pt fields req).count nm = 1 :=
    List.count_eq_one_of_mem hnodup hmem
  rw [h1]
  omega

theorem printFragmentWrap_shape {ctx : PrinterCtx} {sv : Argument} {code out : Printable}
    (h : printFragmentWrap ctx sv code = .ok out) :
    ∃ g props, out = .call g [code, .object props] := by
  unfold printFragmentWrap at h
  cases hv : sv.value with
  | arr items =>
      rw [hv] at h
      have h2 : (do
          let props ← selectVariableProps ctx items
          pure (Printable.call (.propAccess (identify ctx.tagName) "__createFragment")
            [code, .object props]) : Except Err Printable) = .ok out := h
      rw [except_bind_ok] at h2
      obtain ⟨props, _, h2⟩ := h2
      rw [except_pure_def, Except.ok.injEq] at h2
      exact ⟨_, props, h2.symm⟩
  | var n =>
      rw [hv] at h
      exact absurd h (by simp [except_throw_def])
  | lit v =>
      rw [hv] at h
      exact absurd h (by simp [except_throw_def])

theorem printFragmentFinish_shape {ctx : PrinterCtx} {sv : Option Argument}
    {code out : Printable} (h : printFragmentFinish ctx sv code = .ok out) :
    out = code ∨ ∃ g props, out = .call g [code, .object props] := by
  cases sv with
  | none =>
      have h2 : (pure code : Except Err Printable) = .ok out := h
      rw [except_pure_def, Except.ok.injEq] at h2
      exact Or.inl h2.symm
  | some a =>
      have h2 : printFragmentWrap ctx a code = .ok out := h
      exact Or.inr (printFragmentWrap_shape h2)

theorem printFragment_ok_parts {ctx : PrinterCtx} {fuel : Nat} {fr : QLFragment}
    {out : Printable} (h : printFragment ctx fuel fr = .ok out) :
    ∃ n selections mdObj,
      fuel = n + 1
      ∧ printSelections ctx n fr.selections fr.type (printFragmentReq fr.type)
          (printFieldIdFragment fr.type fr.selections) (fr.hasDirective "generated")
          = .ok selections
      ∧ printRelayDirectiveMetadata fr.directives
          [("isAbstract", .bool fr.type.isAbstract),
           ("isTrackingEnabled", .bool (fragmentSelectVariables fr).isSome)] = .ok mdObj
      ∧ fragmentNodeOf out = codify
          [("children", selections),
           ("directives", printDirectives ctx fr.directives),
           ("id", .call (.propAccess (identify ctx.tagName) "__id") []),
           ("kind", strLit "Fragment"),
           ("metadata", mdObj),
           ("name", strLit fr.name),
           ("type", strLit fr.type.name)]
      ∧ fieldNameOf out = none := by
  cases fuel with
  | zero => exact absurd h (by simp [printFragment, except_throw_def])
  | succ n =>
      simp only [printFragment] at h
      rw [except_bind_ok] at h
      obtain ⟨selections, hsel, h⟩ := h
      rw [except_bind_ok] at h
      obtain ⟨mdObj, hmd, h⟩ := h
      refine ⟨n, selections, mdObj, rfl, hsel, hmd, ?_, ?_⟩
      · rcases printFragmentFinish_shape h with hc | ⟨g, props, hc⟩
        · subst hc
          rfl
        · subst hc
          rfl
      · rcases printFragmentFinish_shape h with hc | ⟨g, props, hc⟩
        · subst hc
          unfold fieldNameOf
          rw [codify_get_none (by intro q hq hk; fin_cases hq <;> simp at hk)]
        · subst hc
          rfl

theorem printFragment_fieldNameOf_none {ctx : PrinterCtx} {fuel : Nat}
    {fr : QLFragment} {out : Printable} (h : printFragment ctx fuel fr = .ok out) :
    fieldNameOf out = none := by
  obtain ⟨n, selections, mdObj, _, _, _, _, hfn⟩ := printFragment_ok_parts h
  exact hfn

theorem printFragmentList_none_named {ctx : PrinterCtx} :
    ∀ {frs : List QLFragment} {fuel : Nat} {ps : List Printable},
      printFragmentList ctx fuel frs = .ok ps → ∀ q ∈ ps, fieldNameOf q = none := by
  intro frs
  induction frs with
  | nil =>
      intro fuel ps h
      simp only [printFragmentList, except_pure_def, Except.ok.injEq] at h
      subst h
      intro q hq
      exact absurd hq (List.not_mem_nil q)
  | cons fr rest ih =>
      intro fuel ps h
      cases fuel with
      | zero => exact absurd h (by simp [printFragmentList, except_throw_def])
      | succ n =>
          simp only [printFragmentList] at h
          rw [except_bind_ok] at h
          obtain ⟨p, hp, h⟩ := h
          rw [except_bind_ok] at h
          obtain ⟨ps1, hrec, h⟩ := h
          rw [except_pure_def, Except.ok.injEq] at h
          subst h
          intro q hq
          rcases List.mem_cons.mp hq with hq | hq
          · subst hq
            exact printFragment_fieldNameOf_none hp
          · exact ih hrec q hq

theorem printSelectionsAux_parts {ctx : PrinterCtx} :
    ∀ {sels : List QLSelection} {fuel : Nat} {fs : List QLField}
      {pfs : List Printable} {dp : Bool},
      printSelectionsAux ctx fuel sels = .ok (fs, pfs, dp) →
      fs = fieldSelectionsOf sels ∧ ∀ q ∈ pfs, fieldNameOf q = none := by
  intro sels
  induction sels with
  | nil =>
      intro fuel fs pfs dp h
      simp only [printSelectionsAux, except_pure_def, Except.ok.injEq,
        Prod.mk.injEq] at h
      obtain ⟨h1, h2, h3⟩ := h
      subst h1
      subst h2
      exact ⟨rfl, by intro q hq; exact absurd hq (List.not_mem_nil q)⟩
  | cons sel rest ih =>
      intro fuel fs pfs dp h
      cases fuel with
      | zero => exact absurd h (by simp [printSelectionsAux, except_throw_def])
      | succ n =>
          cases sel with
          | field f =>
              simp only [printSelectionsAux] at h
              rw [except_bind_ok] at h
              obtain ⟨trip, haux, h⟩ := h
              obtain ⟨fs1, pfs1, dp1⟩ := trip
              simp only [except_pure_def, Except.ok.injEq, Prod.mk.injEq] at h
              obtain ⟨h1, h2, h3⟩ := h
              subst h1
              subst h2
              obtain ⟨ha, hb⟩ := ih haux
              exact ⟨by rw [ha]; rfl, hb⟩
          | spread nm ds =>
              simp only [printSelectionsAux] at h
              by_cases hds : ds.length ≠ 0
              · rw [if_pos hds] at h
                exact absurd h (by simp [except_throw_def])
              · rw [if_neg hds] at h
                rw [except_bind_ok] at h
                obtain ⟨trip, haux, h⟩ := h
                obtain ⟨fs1, pfs1, dp1⟩ := trip
                simp only [except_pure_def, Except.ok.injEq, Prod.mk.injEq] at h
                obtain ⟨h1, h2, h3⟩ := h
                subst h1
                subst h2
                obtain ⟨ha, hb⟩ := ih haux
                refine ⟨by rw [ha]; rfl, ?_⟩
                intro q hq
                rcases List.mem_cons.mp hq with hq | hq
                · subst hq
                  rfl
                · exact hb q hq
          | inlineFrag fr =>
              simp only [printSelectionsAux] at h
              rw [except_bind_ok] at h
              obtain ⟨pf, hpf, h⟩ := h
              rw [except_bind_ok] at h
              obtain ⟨trip, haux, h⟩ := h
              obtain ⟨fs1, pfs1, dp1⟩ := trip
              simp only [except_pure_def, Except.ok.injEq, Prod.mk.injEq] at h
              obtain ⟨h1, h2, h3⟩ := h
              subst h1
              subst h2
              obtain ⟨ha, hb⟩ := ih haux
              refine ⟨by rw [ha]; rfl, ?_⟩
              intro q hq
              rcases List.mem_cons.mp hq with hq | hq
              · subst hq
                exact printFragment_fieldNameOf_none hpf
              · exact hb q hq

theorem printSelections_requisite_once {ctx : PrinterCtx} {fuel : Nat}
    {sels : List QLSelection} {pt : QLType} {req : List String}
    {extra : List QLFragment} {ig : Bool} {out : Printable} {nm : String}
    (hgen : generatesOwnNameB pt = true)
    (hmem : nm ∈ req) (hnodup : req.Nodup)
    (hcount : ((fieldSelectionsOf sels).map QLField.name).count nm ≤ 1)
    (h : printSelections ctx fuel sels pt req extra ig = .ok out) :
    out.isSentinel = false ∧ countFieldName (selectionEntries out) nm = 1 := by
  cases fuel with
  | zero => exact absurd h (by simp [printSelections, except_throw_def])
  | succ n =>
      simp only [printSelections] at h
      rw [except_bind_ok] at h
      obtain ⟨trip, haux, h⟩ := h
      obtain ⟨fields, pfs, dp⟩ := trip
      dsimp only at h
      rw [except_bind_ok] at h
      obtain ⟨extraP, hextra, h⟩ := h
      rw [except_bind_ok] at h
      obtain ⟨printedFields, hpf, h⟩ := h
      obtain ⟨hfs, hnone⟩ := printSelectionsAux_parts haux
      subst hfs
      have hcnt : countFieldName printedFields nm = 1 :=
        printFields_count hgen (requisiteAfter_mem hmem) (requisiteAfter_nodup hnodup)
          hcount hpf
      have hfragnames : List.filterMap fieldNameOf (pfs ++ extraP) = [] := by
        rw [List.filterMap_eq_nil]
        intro q hq
        rcases List.mem_append.mp hq with hq | hq
        · exact hnone q hq
        · exact printFragmentList_none_named hextra q hq
      have htot : (namesOf (printedFields ++ (pfs ++ extraP))).count nm = 1 := by
        unfold namesOf
        rw [List.filterMap_append, hfragnames, List.append_nil]
        exact hcnt
      by_cases hlen : (printedFields ++ (pfs ++ extraP)).length ≠ 0
      · rw [if_pos hlen] at h
        rw [except_pure_def, Except.ok.injEq] at h
        subst h
        cases dp with
        | true =>
            rw [if_pos rfl]
            exact ⟨rfl, htot⟩
        | false =>
            rw [if_neg (by simp)]
            exact ⟨rfl, htot⟩
      · rw [if_neg hlen] at h
        rw [except_pure_def, Except.ok.injEq] at h
        have hemp : printedFields ++ (pfs ++ extraP) = [] := by
          cases hc : printedFields ++ (pfs ++ extraP) with
          | nil => rfl
          | cons a l =>
              rw [hc] at hlen
              exact absurd (by simp) hlen
        rw [hemp] at htot
        exact absurd htot (by simp [namesOf])

theorem printQuery_ok_body {ctx : PrinterCtx} {fuel : Nat} {q : Operation}
    {ev : Bool} {obj : Printable} (h : printQuery ctx fuel q ev = .ok obj) :
    ∃ n, fuel = n + 1 ∧ printQueryBody ctx n q = .ok obj := by
  cases fuel with
  | zero => exact absurd h (by simp [printQuery, except_throw_def])
  | succ n =>
      unfold printQuery at h
      have h2 : (if q.fields.length ≠ 1 ∧ ev = true then
          (throw (Err.tooManyRootFields q.fields.length q.name) : Except Err Printable)
        else printQueryBody ctx n q) = Except.ok obj := h
      by_cases hc : q.fields.length ≠ 1 ∧ ev = true
      · rw [if_pos hc] at h2
        exact absurd h2 (by simp [except_throw_def])
      · rw [if_neg hc] at h2
        exact ⟨n, rfl, h2⟩

theorem printQueryFinish_children {ctx : PrinterCtx} {q : Operation} {rf : QLField}
    {md : List (String × JSValue)} {calls selections out : Printable}
    (hs : selections.isSentinel = false)
    (h : printQueryFinish ctx q rf md calls selections = .ok out) :
    jsObjGet out "children" = some selections := by
  unfold printQueryFinish at h
  rw [except_bind_ok] at h
  obtain ⟨mObj, hm, h⟩ := h
  rw [except_pure_def, Except.ok.injEq] at h
  subst h
  have hsplit :
      [("calls", calls), ("children", selections),
       ("directives", printDirectives ctx rf.directives),
       ("fieldName", strLit rf.name), ("kind", strLit "Query"),
       ("metadata", mObj), ("name", strLit q.name),
       ("type", strLit rf.type.name)]
      = [("calls", calls)]
        ++ ("children", selections)
        :: [("directives", printDirectives ctx rf.directives),
            ("fieldName", strLit rf.name), ("kind", strLit "Query"),
            ("metadata", mObj), ("name", strLit q.name),
            ("type", strLit rf.type.name)] := rfl
  rw [hsplit, codify_get hs (by intro r hr; fin_cases hr <;> simp)]

theorem printQueryBody_children {ctx : PrinterCtx} {fuel : Nat} {q : Operation}
    {rf : QLField} {out : Printable}
    (hhead : q.fields.head? = some rf)
    (h : printQueryBody ctx fuel q = .ok out) :
    ∃ selections,
      printSelections ctx fuel rf.selections rf.type (printQueryReq rf.type) [] false
        = .ok selections
      ∧ (selections.isSentinel = false → jsObjGet out "children" = some selections) := by
  unfold printQueryBody at h
  split at h
  · exact absurd h (by simp [except_throw_def])
  · rename_i rootField heq
    rw [hhead] at heq
    have hrf : rf = rootField := Option.some.inj heq
    subst hrf
    rw [except_bind_ok] at h
    obtain ⟨selections, hsel, h⟩ := h
    have hsel2 : printSelections ctx fuel rf.selections rf.type (printQueryReq rf.type)
        [] false = .ok selections := hsel
    refine ⟨selections, hsel2, ?_⟩
    intro hs
    by_cases hlen : rf.args.length > 1
    · rw [if_pos hlen] at h
      exact absurd h (by simp [except_throw_def])
    · rw [if_neg hlen] at h
      split at h
      · rename_i identifyingArg
        rw [except_bind_ok] at h
        obtain ⟨callMeta, hcm, h⟩ := h
        exact printQueryFinish_children hs h
      · exact printQueryFinish_children hs h

theorem printFieldBaseReq_nodup (t : QLType) : (printFieldBaseReq t).Nodup := by
  unfold printFieldBaseReq
  by_cases hc : t.hasField "id" = true
  · rw [if_pos hc]
    exact List.nodup_singleton "id"
  · rw [if_neg hc]
    exact List.nodup_nil

theorem childRequisiteExtra_nodup (t : QLType) {base : List String} (h : base.Nodup) :
    (childRequisiteExtra t base).Nodup := by
  unfold childRequisiteExtra
  by_cases h1 : t.isConnection = true
  · rw [if_pos h1]
    exact h
  · rw [if_neg h1]
    by_cases h2 : t.isConnectionPageInfo = true
    · rw [if_pos h2]
      exact insertName_nodup _ (insertName_nodup _ h)
    · rw [if_neg h2]
      by_cases h3 : t.isConnectionEdge = true
      · rw [if_pos h3]
        exact insertName_nodup _ (insertName_nodup _ h)
      · rw [if_neg h3]
        exact h

theorem printFieldChildReq_nodup (t : QLType) : (printFieldChildReq t).Nodup := by
  unfold printFieldChildReq
  by_cases hc : t.isAbstract = true
  · rw [if_pos hc]
    exact insertName_nodup _ (childRequisiteExtra_nodup t (printFieldBaseReq_nodup t))
  · rw [if_neg hc]
    exact childRequisiteExtra_nodup t (printFieldBaseReq_nodup t)

theorem printFieldChildReq_mem_typename {t : QLType} (h : t.isAbstract = true) :
    "__typename" ∈ printFieldChildReq t := by
  unfold printFieldChildReq
  rw [if_pos h]
  exact insertName_mem_self _ _

theorem printFragmentReq_nodup (t : QLType) : (printFragmentReq t).Nodup := by
  unfold printFragmentReq
  by_cases hc : t.isAbstract = true
  · rw [if_pos hc]
    exact insertName_nodup _ (printFieldBaseReq_nodup t)
  · rw [if_neg hc]
    exact printFieldBaseReq_nodup t

theorem printFragmentReq_mem_typename {t : QLType} (h : t.isAbstract = true) :
    "__typename" ∈ printFragmentReq t := by
  unfold printFragmentReq
  rw [if_pos h]
  exact insertName_mem_self _ _

theorem printQueryReq_nodup (t : QLType) : (printQueryReq t).Nodup := by
  unfold printQueryReq
  have hbase : (match t.identifyingField with
      | some nm => [nm]
      | none => ([] : List String)).Nodup := by
    cases t.identifyingField with
    | none => exact List.nodup_nil
    | some nm => exact List.nodup_singleton nm
  by_cases hc : t.isAbstract = true
  · rw [if_pos hc]
    exact insertName_nodup _ hbase
  · rw [if_neg hc]
    exact hbase

theorem printQueryReq_mem_typename {t : QLType} (h : t.isAbstract = true) :
    "__typename" ∈ printQueryReq t := by
  unfold printQueryReq
  rw [if_pos h]
  exact insertName_mem_self _ _

/-- C3: printing the field list of a connection parent (a connection type
having a `pageInfo` field) whose fields request `edges` yields `pageInfo`
exactly once — appended as a generated field when not explicitly requested
and not duplicated when the author requested it (at most once), given a
duplicate-free incoming requisite set and a schema facade whose generated
fields carry the requested names. -/
theorem c3_theorem {ctx : PrinterCtx} {fuel : Nat} {fields : List QLField}
    {pt : QLType} {req : List String} {ig : Bool} {ps : List Printable}
    (hconn : pt.isConnection = true)
    (hpi : pt.hasField "pageInfo" = true)
    (hedges : fields.any (fun fl => fl.name = "edges") = true)
    (hnodup : req.Nodup)
    (hcount : (fields.map QLField.name).count "pageInfo" ≤ 1)
    (hgen : generatesOwnNameB pt = true)
    (h : printFields ctx fuel fields pt req ig = .ok ps) :
    countFieldName ps "pageInfo" = 1 := by
  have hcond : (pt.isConnection && pt.hasField "pageInfo"
      && fields.any (fun fl => fl.name = "edges")) = true := by
    rw [hconn, hpi, hedges]
    rfl
  have hreq : requisiteAfter pt fields req = insertName req "pageInfo" := by
    unfold requisiteAfter
    rw [if_pos hcond]
  refine printFields_count hgen ?_ ?_ hcount h
  · rw [hreq]
    exact insertName_mem_self req "pageInfo"
  · rw [hreq]
    exact insertName_nodup _ hnodup

/-- C3 (witness): on the example connection, requesting only `edges`
produces `pageInfo` once (generated), and requesting `edges` and
`pageInfo` also produces it once (not duplicated). -/
theorem c3_witness :
    countFieldName (okD (printFields Cex.ctx0 30 [Cex.edgesField] Cex.connT [] false) [])
      "pageInfo" = 1
    ∧ countFieldName (okD (printFields Cex.ctx0 30
        [Cex.edgesField, Cex.bare "pageInfo" Cex.pageInfoT] Cex.connT [] false) [])
      "pageInfo" = 1 :=
  ⟨@c3_theorem Cex.ctx0 30 [Cex.edgesField] Cex.connT [] false _ rfl rfl rfl
      List.nodup_nil (by decide) rfl (by rfl),
   @c3_theorem Cex.ctx0 30 [Cex.edgesField, Cex.bare "pageInfo" Cex.pageInfoT] Cex.connT
      [] false _ rfl rfl rfl List.nodup_nil (by decide) rfl (by rfl)⟩

/-- C4: for a query, fragment or field whose (root) type is abstract, the
printed selection set carries the `__typename` requisite field exactly
once — whether or not it was requested explicitly (at most once), under a
schema facade whose generated fields carry the requested names — and any
explicitly requested field whose name is in the requisite sibling set is
marked `isRequisite: true` in its metadata, so no second generated copy
accompanies an explicit occurrence. -/
theorem c4_theorem :
    (∀ (ctx : PrinterCtx) (fuel : Nat) (q : Operation) (rf : QLField) (ev : Bool)
       (out : Printable),
        q.fields.head? = some rf →
        rf.type.isAbstract = true →
        generatesOwnNameB rf.type = true →
        ((fieldSelectionsOf rf.selections).map QLField.name).count "__typename" ≤ 1 →
        printQuery ctx fuel q ev = .ok out →
        countFieldName (childEntries out) "__typename" = 1)
    ∧ (∀ (ctx : PrinterCtx) (fuel : Nat) (fr : QLFragment) (out : Printable),
        fr.type.isAbstract = true →
        generatesOwnNameB fr.type = true →
        ((fieldSelectionsOf fr.selections).map QLField.name).count "__typename" ≤ 1 →
        printFragment ctx fuel fr = .ok out →
        countFieldName (childEntries (fragmentNodeOf out)) "__typename" = 1)
    ∧ (∀ (ctx : PrinterCtx) (fuel : Nat) (f : QLField) (pt : QLType)
       (rs gs : List String) (ig : Bool) (out : Printable),
        f.type.isAbstract = true →
        generatesOwnNameB f.type = true →
        ((fieldSelectionsOf f.selections).map QLField.name).count "__typename" ≤ 1 →
        printField ctx fuel f pt rs gs ig = .ok out →
        countFieldName (childEntries out) "__typename" = 1)
    ∧ (∀ (ctx : PrinterCtx) (fuel : Nat) (f : QLField) (pt : QLType)
       (rs gs : List String) (ig : Bool) (out : Printable),
        rs.contains f.name = true →
        printField ctx fuel f pt rs gs ig = .ok out →
        jsObjGet (metadataOf out) "isRequisite" = some (.lit (.bool true))) := by
  refine ⟨?_, ?_, ?_, ?_⟩
  · intro ctx fuel q rf ev out hhead habs hgen hcount hok
    obtain ⟨n, rfl, hbody⟩ := printQuery_ok_body hok
    obtain ⟨selections, hsel, hch⟩ := printQueryBody_children hhead hbody
    obtain ⟨hsent, hcnt⟩ := printSelections_requisite_once hgen
      (printQueryReq_mem_typename habs) (printQueryReq_nodup _) hcount hsel
    unfold childEntries
    rw [hch hsent]
    exact hcnt
  · intro ctx fuel fr out habs hgen hcount hok
    obtain ⟨n, selections, mdObj, hfuel, hsel, hmd, hnode, _⟩ :=
      printFragment_ok_parts hok
    obtain ⟨hsent, hcnt⟩ := printSelections_requisite_once hgen
      (printFragmentReq_mem_typename habs) (printFragmentReq_nodup _) hcount hsel
    unfold childEntries
    rw [hnode, codify_get_head hsent (by intro r hr; fin_cases hr <;> simp)]
    exact hcnt
  · intro ctx fuel f pt rs gs ig out habs hgen hcount hok
    obtain ⟨n, children, calls, mdObj, hfuel, hsel, hmd, hcalls, hout⟩ :=
      printField_ok_parts hok
    obtain ⟨hsent, hcnt⟩ := printSelections_requisite_once hgen
      (printFieldChildReq_mem_typename habs) (printFieldChildReq_nodup _) hcount hsel
    subst hout
    unfold childEntries
    have hsplit :
        [("alias", aliasProp f.aliasName), ("calls", calls), ("children", children),
         ("directives", printDirectives ctx f.directives),
         ("fieldName", strLit f.name), ("kind", strLit "Field"),
         ("metadata", mdObj), ("type", strLit f.type.name)]
        = [("alias", aliasProp f.aliasName), ("calls", calls)]
          ++ ("children", children)
          :: [("directives", printDirectives ctx f.directives),
              ("fieldName", strLit f.name), ("kind", strLit "Field"),
              ("metadata", mdObj), ("type", strLit f.type.name)] := rfl
    rw [hsplit, codify_get hsent (by intro r hr; fin_cases hr <;> simp)]
    exact hcnt
  · intro ctx fuel f pt rs gs ig out hc hok
    exact printField_isRequisite hc hok

/-- C4 (witness): the abstract example query root gets `__typename` exactly
once, both when generated and when explicitly requested. -/
theorem c4_witness :
    countFieldName (childEntries (okD (printQuery Cex.ctx0 20 Cex.qOp true)
      .sentinelNull)) "__typename" = 1
    ∧ countFieldName (childEntries (okD (printQuery Cex.ctx0 20 Cex.qOpExplicit true)
      .sentinelNull)) "__typename" = 1 :=
  ⟨c4_theorem.1 Cex.ctx0 20 Cex.qOp Cex.qRoot true _ rfl rfl rfl (by decide) (by rfl),
   c4_theorem.1 Cex.ctx0 20 Cex.qOpExplicit Cex.qRootExplicit true _ rfl rfl rfl
     (by decide) (by rfl)⟩

theorem objectify_keys_mapM :
    ∀ (kept : List (String × JSValue)) (ps : List (String × Printable)),
      kept.mapM (fun pr => do
        let l ← createLiteral pr.2
        pure (pr.1, l)) = .ok ps →
      ps.map (fun pr => pr.1) = kept.map (fun pr => pr.1) := by
  intro kept
  induction kept with
  | nil =>
      intro ps h
      rw [List.mapM_nil, except_pure_def, Except.ok.injEq] at h
      subst h
      rfl
  | cons pr rest ih =>
      intro ps h
      rw [List.mapM_cons] at h
      rw [except_bind_ok] at h
      obtain ⟨b, hb, h⟩ := h
      rw [except_bind_ok] at h
      obtain ⟨bs, hbs, h⟩ := h
      rw [except_pure_def, Except.ok.injEq] at h
      subst h
      rw [except_bind_ok] at hb
      obtain ⟨l, hl, hb⟩ := hb
      rw [except_pure_def, Except.ok.injEq] at hb
      subst hb
      simp only [List.map_cons]
      rw [ih bs hbs]

/-- C10 (counterexample): the fragment printer always records the computed
`isAbstract` and `isTrackingEnabled` metadata entries through
`createLiteral`, so on a plain fragment over a concrete type the emitted
metadata object carries both flags with the falsy value `false`: the
truthiness filter of `objectify` does not govern fragment metadata. -/
theorem c10_counterexample :
    jsObjGet (metadataOf (okD (printFragment Cex.ctx0 10 Cex.plainFrag) .sentinelNull))
        "isAbstract" = some (.lit (.bool false))
    ∧ jsObjGet (metadataOf (okD (printFragment Cex.ctx0 10 Cex.plainFrag) .sentinelNull))
        "isTrackingEnabled" = some (.lit (.bool false)) := ⟨rfl, rfl⟩

/-- C10 (amended): `codify` omits every property bound to the shared null
sentinel — a printed `Field` with no alias, no applied arguments, no
directives and an empty printed selection set has no
`alias`/`calls`/`children`/`directives` key at all — and a metadata object
built by `objectify` keeps exactly the keys whose values are truthy;
metadata assembled by `printRelayDirectiveMetadata` (fragment and field
metadata) is not truthiness-filtered. -/
theorem c10_theorem :
    (∀ (ctx : PrinterCtx) (n : Nat) (f : QLField) (pt : QLType)
       (rs gs : List String) (ig : Bool) (p : Printable),
        f.aliasName = none → f.args = [] → f.directives = [] →
        printSelections ctx n f.selections f.type (printFieldChildReq f.type)
          (printFieldIdFragment f.type f.selections) ig = .ok .sentinelNull →
        printField ctx (n + 1) f pt rs gs ig = .ok p →
        keysOf p = ["fieldName", "kind", "metadata", "type"])
    ∧ (∀ (props : List (String × JSValue)) (obj : Printable),
        objectify props = .ok obj →
        keysOf obj = (props.filter (fun pr => pr.2.truthy)).map (fun pr => pr.1)) := by
  constructor
  · intro ctx n f pt rs gs ig p halias hargs hdirs hch hok
    obtain ⟨n2, children, calls, mdObj, hfuel, hsel, hmd, hcalls, hout⟩ :=
      printField_ok_parts hok
    have hn2 : n2 = n := by omega
    subst hn2
    rw [hch] at hsel
    have hchildren : Printable.sentinelNull = children := Except.ok.inj hsel
    have hcallsent : calls = .sentinelNull := hcalls.1 (by rw [hargs]; rfl)
    obtain ⟨mps, hmps⟩ := printRelayDirectiveMetadata_ok_object hmd
    subst hout
    subst hcallsent
    subst hmps
    rw [← hchildren, halias, hdirs]
    simp [keysOf, codify, Printable.isSentinel, aliasProp, printDirectives, strLit]
  · intro props obj h
    unfold objectify at h
    rw [except_bind_ok] at h
    obtain ⟨ps, hps, h⟩ := h
    rw [except_pure_def, Except.ok.injEq] at h
    subst h
    have hk := objectify_keys_mapM _ ps hps
    simpa [keysOf] using hk

/-- C10 (witness): a plain scalar field prints with only the `fieldName`,
`kind`, `metadata` and `type` keys, and `objectify` keeps the truthy flag
while dropping the falsy one. -/
theorem c10_witness :
    keysOf (okD (printField Cex.ctx0 10 (Cex.bare "name" (Cex.scalarT "String"))
        Cex.concT [] [] false) .sentinelNull)
      = ["fieldName", "kind", "metadata", "type"]
    ∧ keysOf (okD (objectify [("isPlural", JSValue.bool false),
        ("isAbstract", JSValue.bool true)]) .sentinelNull) = ["isAbstract"] :=
  ⟨c10_theorem.1 Cex.ctx0 9 (Cex.bare "name" (Cex.scalarT "String")) Cex.concT [] []
      false _ rfl rfl rfl (by rfl) (by rfl),
   (c10_theorem.2 [("isPlural", JSValue.bool false), ("isAbstract", JSValue.bool true)]
      _ (by rfl)).trans (by rfl)⟩

end Relay



